import Mathlib

/-!
Shallow embedding of the UnknownEmailer report-composition pipeline.

The definitions below are translated from the Python sources:
  app/llm.py      (current section generator, sequential batches)
  app/llm_old.py  (older section generator, concurrent batches)
  app/render.py   (markdown normalization and template rendering)

Python dictionaries with optional keys are represented by structures with
Option-valued fields (none = key absent); Python falsiness of strings is
the test against the empty string. Python's float division `total / count`
produces the binary64 value nearest to the exact quotient; that conversion
is modelled exactly over ℚ by nearestDouble below, and Python
`round(x, 1)` on the resulting float (correctly rounded decimal
conversion, ties to even on the float's exact binary value) is modelled by
pyRound1, whose result is represented by the one-decimal rational the
stored float round-trips to. The exact-rational one-decimal rounding
round1 is kept separately as the comparison point for "mean rounded to
one decimal" read on the exact arithmetic mean.
-/

/-! ### Generic helpers -/

/-- Python string `or` on an optional value: `x or default` yields the
default when `x` is None or the empty string. -/
def pyOr (c : Option String) (dflt : String) : String :=
  match c with
  | none => dflt
  | some t => if t = "" then dflt else t

/-- Python `sep.flatten(parts)`. -/
def pyJoin (sep : String) : List String → String
  | [] => ""
  | [s] => s
  | s :: t :: rest => s ++ sep ++ pyJoin sep (t :: rest)

/-- `t` occurs as a contiguous substring of `s` (on the underlying
character lists). -/
def SubstrOf (t s : String) : Prop :=
  ∃ a b : List Char, s.data = a ++ t.data ++ b

/-- Decidable substring scan over character lists (Python `pat in s`). -/
def hasSub (pat : List Char) : List Char → Bool
  | [] => pat.isEmpty
  | c :: cs => pat.isPrefixOf (c :: cs) || hasSub pat cs

/-- Positions at which `pat` occurs in `l`. -/
def occList (pat l : List Char) : List Nat :=
  (List.range l.length).filter (fun i => pat.isPrefixOf (l.drop i))

/-- Number of (possibly overlapping) occurrences of `pat` in `l`. -/
def countOccs (pat l : List Char) : Nat := (occList pat l).length

/-! ### Rounding

`round(total / count, 1)` in the source first converts the exact quotient
to the nearest binary64 double (ties to even on the 53-bit significand)
and then rounds that double to one decimal, ties to even on the double's
exact binary value. At a decimal tie such as 4.65 the double is not the
tie itself but a nearby value, so the result follows the direction of the
binary approximation error rather than the even rule on the exact mean.
nearestDouble/pyRound1 model the source; round1 is the one-decimal
half-to-even rounding of the exact rational, following the wording "mean
rounded to one decimal", kept for comparison with the source behaviour.
Results beyond the finite double range do not arise for the score ranges
stated below (the source's int/int division raises OverflowError there).
-/

/-- Round a rational to the nearest integer, ties to even. -/
def roundHalfEven (q : ℚ) : ℤ :=
  let f := ⌊q⌋
  if q - f < 1/2 then f
  else if (1 : ℚ)/2 < q - f then f + 1
  else if f % 2 = 0 then f else f + 1

/-- One-decimal rounding, half to even, applied to the exact rational:
the reading of "arithmetic mean rounded to one decimal" on the exact
mean. The source rounds the binary64 approximation instead, see
`pyRound1`. -/
def round1 (q : ℚ) : ℚ := (roundHalfEven (q * 10) : ℤ) / 10

/-- The binary64 double nearest to `q` (round to nearest, ties to even);
subnormal results are handled by clamping the exponent at -1022. This is
the value of Python's float division when the result is finite. -/
def nearestDouble (q : ℚ) : ℚ :=
  if q = 0 then 0
  else
    let s : ℤ := 52 - max (Int.log 2 |q|) (-1022)
    (roundHalfEven (q * 2 ^ s) : ℚ) / 2 ^ s

/-- Python `round(x, 1)` applied to the double `nearestDouble q`: CPython
rounds the double's exact binary value to the closest one-decimal value,
ties to even; the stored float is the double nearest that decimal and is
represented here by the decimal it round-trips to. -/
def pyRound1 (q : ℚ) : ℚ := (roundHalfEven (nearestDouble q * 10) : ℤ) / 10

/-- `q * 10` for `q = t / c` lands exactly on a half-integer: the exact
mean is a one-decimal rounding tie. -/
def tieAt (t : ℤ) (c : ℕ) : Prop := (20 * t) % (2 * (c:ℤ)) = c

/-- One-decimal display of a rounded score, as Python str() of the float
(used only inside fallback text). -/
def fmt1 (q : ℚ) : String :=
  let t : ℤ := ⌊q * 10⌋
  toString (t / 10) ++ "." ++ toString (t % 10)

/-! ### Raw meeting records (input rows)

`app/llm.py` lines 274-357: raw rows are loosely-typed dicts. Optional
keys are Option-valued fields; the `client_info` key can be absent, a
nested dict, a JSON-encoded string (represented by its `json.loads`
outcome), or some other type; each criterion key (`now`, `next`, ...)
can be absent, a dict with optional `evidence`/`reasoning` keys, or a
non-dict value. -/

inductive JsonOutcome where
  | parseError
  | nonDict
  | obj (client : Option String)

inductive ClientInfo where
  | absent
  | dict (client : Option String)
  | str (parsed : JsonOutcome)
  | other

inductive CritVal where
  | absent
  | dict (evidence reasoning : Option String)
  | nonDict

structure RawMeeting where
  client : Option String := none
  client_info : ClientInfo := .absent
  owner : Option String := none
  creator_name : Option String := none
  meeting_date : Option String := none
  date : Option String := none
  score : Option Int := none
  total_qualified_sections : Option Int := none
  meeting_title : Option String := none
  title : Option String := none
  now_evidence : Option String := none
  next_evidence : Option String := none
  measure_evidence : Option String := none
  blocker_evidence : Option String := none
  fit_evidence : Option String := none
  nowCrit : CritVal := .absent
  nextCrit : CritVal := .absent
  measureCrit : CritVal := .absent
  blockerCrit : CritVal := .absent
  fitCrit : CritVal := .absent
  challenges : List String := []
  results : List String := []
  offering : Option String := none
  meeting_link : Option String := none
  granola_link : Option String := none

/-- `LLMClient._extract_evidence` (llm.py lines 352-357): a dict yields
`d.get("evidence", d.get("reasoning", ""))` (an absent `client_info`
defaults to the empty dict, which also lands in this case); a non-dict
value yields the empty string. -/
def _extract_evidence (c : CritVal) : String :=
  match c with
  | .dict e r => e.getD (r.getD "")
  | .absent => ""
  | .nonDict => ""

/-- Client resolution, llm.py lines 283-293: explicit `client` field,
then nested `client_info` dict, then a JSON-encoded `client_info`
string; the bare `except: pass` leaves the current value in place when
parsing fails or the parsed value has no `.get`. -/
def resolve_client (m : RawMeeting) : String :=
  let client := m.client.getD "Unknown Client"
  if client = "" ∨ client = "Unknown Client" then
    match m.client_info with
    | .absent => "Unknown Client"
    | .dict d => d.getD "Unknown Client"
    | .str .parseError => client
    | .str .nonDict => client
    | .str (.obj d) => d.getD "Unknown Client"
    | .other => client
  else client

/-- Team-member resolution, llm.py line 296:
`meeting.get("owner", meeting.get("creator_name", "Unknown"))`. -/
def resolve_team_member (m : RawMeeting) : String :=
  m.owner.getD (m.creator_name.getD "Unknown")

/-- Evidence resolution, llm.py lines 305-309:
`meeting.get(k, "") or self._extract_evidence(meeting, c)`. -/
def resolve_evidence (explicitEv : Option String) (c : CritVal) : String :=
  let e := explicitEv.getD ""
  if e = "" then _extract_evidence c else e

/-- One entry of `processed_meetings` (llm.py lines 299-314). -/
structure PMeeting where
  client : String
  team_member : String
  date : String
  score : Int
  title : String
  now_evidence : String
  next_evidence : String
  measure_evidence : String
  blocker_evidence : String
  fit_evidence : String
  challenges : List String
  results : List String
  offering : String
  meeting_link : String
deriving DecidableEq

def processMeeting (m : RawMeeting) : PMeeting where
  client := resolve_client m
  team_member := resolve_team_member m
  date := m.meeting_date.getD (m.date.getD "")
  score := m.score.getD (m.total_qualified_sections.getD 0)
  title := m.meeting_title.getD (m.title.getD "Client Meeting")
  now_evidence := resolve_evidence m.now_evidence m.nowCrit
  next_evidence := resolve_evidence m.next_evidence m.nextCrit
  measure_evidence := resolve_evidence m.measure_evidence m.measureCrit
  blocker_evidence := resolve_evidence m.blocker_evidence m.blockerCrit
  fit_evidence := resolve_evidence m.fit_evidence m.fitCrit
  challenges := m.challenges
  results := m.results
  offering := m.offering.getD ""
  meeting_link := m.meeting_link.getD (m.granola_link.getD "#")

/-- One value of the `team_stats` defaultdict (llm.py lines 280,
319-332): the per-member mini-meeting list keeps (client, date, score)
records; `average` is present only once the averaging pass has run for a
member with `count > 0`. -/
structure MemberStats where
  meetings : List (String × String × Int)
  total : Int
  count : Nat
  average : Option ℚ
deriving DecidableEq

def emptyStats : MemberStats := ⟨[], 0, 0, none⟩

def statEntry (pm : PMeeting) : String × String × Int := (pm.client, pm.date, pm.score)

def addMeeting (s : MemberStats) (pm : PMeeting) : MemberStats :=
  { s with
    meetings := s.meetings ++ [statEntry pm]
    total := s.total + pm.score
    count := s.count + 1 }

/-- Update of `team_stats[team_member]` for one meeting; the defaultdict
creates a fresh empty entry on first access (insertion order kept). -/
def upsert (pm : PMeeting) : List (String × MemberStats) → List (String × MemberStats)
  | [] => [(pm.team_member, addMeeting emptyStats pm)]
  | (k, s) :: rest =>
    if k = pm.team_member then (k, addMeeting s pm) :: rest
    else (k, s) :: upsert pm rest

def buildStats (pms : List PMeeting) : List (String × MemberStats) :=
  pms.foldl (fun acc pm => upsert pm acc) []

/-- Averaging pass, llm.py lines 328-332: sets `average` only when
`count > 0`. -/
def setAverage (e : String × MemberStats) : String × MemberStats :=
  if 0 < e.2.count then
    (e.1, { e.2 with average := some (pyRound1 ((e.2.total : ℚ) / (e.2.count : ℚ))) })
  else e

/-- The dict returned by `_process_client_meetings` (llm.py 341-350). -/
structure ProcessedData where
  total_meetings : Nat
  qualified_meetings : Nat
  average_score : ℚ
  team_performance : List (String × MemberStats)
  meetings : List PMeeting
  summary : String
  trends : String
  client_patterns : String

/-- The BigQuery payload handed to `_process_client_meetings`; only the
keys the function reads are modelled. -/
structure InputData where
  now_pipeline : List RawMeeting := []
  sample_meetings : List RawMeeting := []
  summary_metrics : String := ""
  trends : String := ""
  client_concentration : String := ""

/-- `LLMClient._process_client_meetings` (llm.py lines 274-350). -/
def _process_client_meetings (d : InputData) : ProcessedData :=
  let meetings := if d.now_pipeline.isEmpty then d.sample_meetings else d.now_pipeline
  let pms := meetings.map processMeeting
  let stats := (buildStats pms).map setAverage
  let total := pms.length
  let qualified := (pms.filter (fun m => decide (3 ≤ m.score))).length
  let avg : ℚ :=
    if total = 0 then 0
    else pyRound1 (((pms.map (fun m => (m.score : ℚ))).sum) / (total : ℚ))
  { total_meetings := total
    qualified_meetings := qualified
    average_score := avg
    team_performance := stats
    meetings := pms
    summary := d.summary_metrics
    trends := d.trends
    client_patterns := d.client_concentration }

/-! ### Conversation-card section (llm.py lines 204-253, llm_old.py 190-221)

Generation-service calls are abstracted by their outcome: the transport
either raises or returns an optional message content. -/

inductive CallOutcome where
  | raises
  | returns (content : Option String)
deriving DecidableEq

/-- Stable descending insertion by score. `sorted(meetings, key=lambda
x: x.get('score', 0), reverse=True)` is a stable descending sort, whose
result this insertion sort reproduces: an element is placed before the
first earlier-inserted element whose score is at most its own, so equal
scores keep their original order. -/
def insDesc (m : PMeeting) : List PMeeting → List PMeeting
  | [] => [m]
  | x :: xs => if x.score ≤ m.score then m :: x :: xs else x :: insDesc m xs

def sortDesc (l : List PMeeting) : List PMeeting := l.foldr insDesc []

/-- `[meetings_sorted[i:i+batch_size] for i in range(0, len, batch_size)]`
with `batch_size = 3`. -/
def chunk3 {α : Type} : List α → List (List α)
  | [] => []
  | [a] => [[a]]
  | [a, b] => [[a, b]]
  | a :: b :: c :: l => [a, b, c] :: chunk3 l

/-- `LLMClient._fallback_conversation_card` (llm.py lines 370-400). -/
def _fallback_conversation_card (m : PMeeting) : String :=
  let now := if m.now_evidence ≠ "" then m.now_evidence.take 150
    else "Client needs assessment in progress"
  let next_step := if m.next_evidence ≠ "" then m.next_evidence.take 150
    else "Decision timeline to be confirmed"
  let measure := if m.measure_evidence ≠ "" then m.measure_evidence.take 150
    else "Success criteria to be defined"
  let blocker := if m.blocker_evidence ≠ "" then m.blocker_evidence.take 150
    else "No immediate blockers identified"
  "### " ++ m.client ++ " with " ++ m.team_member ++
  "\n\n**Meeting**: " ++ m.title ++ " - " ++ m.date ++ " | **Score**: " ++
  toString m.score ++ "/5\n\n✅ **What " ++ m.team_member ++
  " Uncovered:**\n\n- **NOW**: " ++ now ++
  "\n- **NEXT**: " ++ next_step ++
  "\n- **MEASURE**: " ++ measure ++
  "\n- **BLOCKER**: " ++ blocker ++
  "\n- **FIT**: Strategic opportunity for UNKNOWN\x27s talent advisory and placement services with immediate commercial upside" ++
  "\n\n💡 **Coaching for " ++ m.team_member ++
  ":**\nDig deeper on decision authority and timeline - ask who the final decision-maker is, what would accelerate the process, and whether there are competing internal priorities that could derail progress." ++
  "\n\n**Next Action**: Schedule follow-up meeting to clarify specific role requirements and confirm next steps with concrete deliverables and deadlines." ++
  "\n\n[View meeting →](" ++ m.meeting_link ++ ")\n\n---"

/-- `LLMClient._generate_conversation_batch` (llm.py lines 234-253): a
transport exception yields the fallback cards of the batch joined by
a separator line; a transport success yields `content or ""`. -/
def _generate_conversation_batch (batch : List PMeeting) (o : CallOutcome) : String :=
  match o with
  | .returns c => pyOr c ""
  | .raises => pyJoin "\n---\n" (batch.map _fallback_conversation_card)

/-- The sequential per-batch loop of llm.py lines 219-230, one call
outcome per batch position. The loop's own try/except is unreachable
because `_generate_conversation_batch` already catches every exception,
so only the inner handler is modelled. -/
def genBatchList : List (List PMeeting) → (Nat → CallOutcome) → List String
  | [], _ => []
  | b :: bs, o => _generate_conversation_batch b (o 0) :: genBatchList bs (fun i => o (i + 1))

/-- `LLMClient._generate_all_conversations_concurrent` of llm.py (lines
204-232; despite the name this version runs batches sequentially). -/
def _generate_all_conversations_concurrent (meetings : List PMeeting)
    (o : Nat → CallOutcome) : String :=
  if meetings.isEmpty then "No qualified meetings found."
  else pyJoin "\n" (genBatchList (chunk3 (sortDesc meetings)) o)

/-! ### The older concurrent collector (llm_old.py lines 190-221)

`future.result(timeout=30)` either returns the batch text or raises on
timeout. Futures are collected in submission order. The literal
characters of llm_old.py are kept, including its double-encoded emoji
bytes. -/

inductive BatchResult where
  | ok (s : String)
  | timeout
deriving DecidableEq

/-- `LLMClient._fallback_conversation_card` of llm_old.py (lines
361-379): no emptiness test on the evidence strings and a 200-character
truncation. -/
def old_fallback_conversation_card (m : PMeeting) : String :=
  "### " ++ m.client ++ " with " ++ m.team_member ++
  "\n\n**Meeting**: " ++ m.title ++ " - " ++ m.date ++ " | **Score**: " ++
  toString m.score ++ "/5\n\nâœ… **What was uncovered:**\n- **NOW**: " ++
  m.now_evidence.take 200 ++
  "\n- **NEXT**: " ++ m.next_evidence.take 200 ++
  "\n- **MEASURE**: " ++ m.measure_evidence.take 200 ++
  "\n- **BLOCKER**: " ++ m.blocker_evidence.take 200 ++
  "\n- **FIT**: Opportunity aligns with UNKNOWN\x27s talent consultancy services" ++
  "\n\n**Next Action**: Follow up with client on specific hiring requirements.\n\n---"

/-- The result-collection loop of llm_old.py lines 211-219. On a
timeout the `except` block iterates over the loop variable `batch`,
which at that point still holds the LAST batch of the submission loop,
and appends one fallback card per meeting of that last batch. -/
def oldCollect : List (List PMeeting) → List PMeeting → (Nat → BatchResult) → List String
  | [], _, _ => []
  | _ :: bs, lastB, r =>
    (match r 0 with
     | .ok s => [s]
     | .timeout => lastB.map old_fallback_conversation_card) ++
    oldCollect bs lastB (fun i => r (i + 1))

/-- `LLMClient._generate_all_conversations_concurrent` of llm_old.py
(lines 190-221). -/
def old_generate_all_conversations_concurrent (meetings : List PMeeting)
    (r : Nat → BatchResult) : String :=
  if meetings.isEmpty then "No qualified meetings found."
  else
    let batches := chunk3 (sortDesc meetings)
    pyJoin "\n" (oldCollect batches (batches.getLast?.getD []) r)

/-! ### Single-call sections and report assembly (llm.py 122-202, 255-272, 359-413) -/

/-- `LLMClient._fallback_executive_summary` (llm.py lines 360-361).
The one-decimal display of the rounded average models Python str() of
the rounded float. -/
def _fallback_executive_summary (P : ProcessedData) : String :=
  "The team delivered " ++ toString P.qualified_meetings ++
  " qualified client meetings this period, maintaining a " ++ fmt1 P.average_score ++
  "/5 average score. Key opportunities identified across technology and creative sectors."

def _generate_executive_summary (P : ProcessedData) (o : CallOutcome) : String :=
  match o with
  | .raises => _fallback_executive_summary P
  | .returns c => pyOr c (_fallback_executive_summary P)

/-- Display of `stats.get('average', 0)` in the fallback table. -/
def showAvg (a : Option ℚ) : String :=
  match a with
  | none => "0"
  | some q => fmt1 q

/-- `LLMClient._fallback_performance_table` (llm.py lines 363-368). -/
def _fallback_performance_table (P : ProcessedData) : String :=
  "| Name | Meetings | Avg Score |\n|------|----------|----------|\n" ++
  P.team_performance.foldl
    (fun acc e =>
      acc ++ "| " ++ e.1 ++ " | " ++ toString e.2.count ++ " | " ++
      showAvg e.2.average ++ "/5 |\n") "" ++
  "| **Total: " ++ toString P.total_meetings ++
  " conversations** | **Team Average** | **" ++ fmt1 P.average_score ++ "/5** |"

def _generate_performance_table (P : ProcessedData) (o : CallOutcome) : String :=
  match o with
  | .raises => _fallback_performance_table P
  | .returns c => pyOr c (_fallback_performance_table P)

/-- `LLMClient._fallback_team_coaching` (llm.py lines 402-413), a
constant string. -/
def _fallback_team_coaching : String :=
  "## 🎯 TEAM COACHING\n\n**What the team is doing well:**\nMaintaining consistent client meeting quality with good discovery depth.\n\n**To become world-class:**\n- For MEASURE: Ask clients \"What specific outcomes would make this hire successful in 90 days?\"\n- For FIT: Clarify whether clients need permanent hires vs. fractional/freelance solutions\n\n**One thing to focus on:**\nAlways quantify the commercial impact of not hiring - what revenue or projects are at risk without the right talent?"

def _generate_team_coaching (_P : ProcessedData) (o : CallOutcome) : String :=
  match o with
  | .raises => _fallback_team_coaching
  | .returns c => pyOr c _fallback_team_coaching

/-- `LLMClient.generate_insights_v2` (llm.py lines 122-164),
parameterized by the outcome of each generation call. -/
def generate_insights_v2 (d : InputData) (oExec oPerf oCoach : CallOutcome)
    (oConv : Nat → CallOutcome) : String :=
  let P := _process_client_meetings d
  let s1 := "## 📊 EXECUTIVE SUMMARY\n\n" ++ _generate_executive_summary P oExec
  let s2 := "## 📊 TEAM PERFORMANCE TABLE\n\n" ++ _generate_performance_table P oPerf
  let s3 := "## 🎯 ALL CONVERSATIONS (Best to Worst)\n\n" ++
    _generate_all_conversations_concurrent P.meetings oConv
  let s4 := _generate_team_coaching P oCoach
  pyJoin "\n\n" [s1, s2, s3, s4]

/-! ### Markdown normalization (render.py, markdown_to_html lines 25-45)

The regex passes that rewrite the raw generated markup before the
markdown library is invoked. Each `re.sub` scans left to right,
replacing non-overlapping matches and continuing after each match;
the scans below reproduce this with a fuel argument (one unit per
examined position, always sufficient since every step consumes at
least one character). `\s` is the ASCII whitespace class; only ASCII
whitespace occurs in the patterns and inputs considered here. -/

/-- Match a literal character sequence, returning the rest. -/
def matchLit : List Char → List Char → Option (List Char)
  | [], l => some l
  | _, [] => none
  | p :: ps, c :: cs => if c = p then matchLit ps cs else none

def isPySpace (c : Char) : Bool :=
  c = ' ' || c = '\t' || c = '\n' || c = '\r' || c = '\x0b' || c = '\x0c'

/-- Regex `\*\*##\s*TEAM PERFORMANCE TABLE\*\*` at the head of `l`
(render.py line 27). The greedy `\s*` needs no backtracking because the
following literal starts with a non-space character. -/
def tryPat1 (l : List Char) : Option (List Char) :=
  match matchLit "**##".data l with
  | none => none
  | some r => matchLit "TEAM PERFORMANCE TABLE**".data (r.dropWhile isPySpace)

def r1go : Nat → List Char → List Char
  | 0, l => l
  | _ + 1, [] => []
  | n + 1, c :: cs =>
    match tryPat1 (c :: cs) with
    | some rest => r1go n rest
    | none => c :: r1go n cs

/-- `re.sub(r'\*\*##\s*TEAM PERFORMANCE TABLE\*\*', '', md)` (line 27). -/
def r1 (l : List Char) : List Char := r1go l.length l

/-- Regex `##\s*\*\*Team Performance Table\*\*` at the head of `l`
(render.py line 28). -/
def tryPat2 (l : List Char) : Option (List Char) :=
  match matchLit "##".data l with
  | none => none
  | some r => matchLit "**Team Performance Table**".data (r.dropWhile isPySpace)

def r2go : Nat → List Char → List Char
  | 0, l => l
  | _ + 1, [] => []
  | n + 1, c :: cs =>
    match tryPat2 (c :: cs) with
    | some rest => r2go n rest
    | none => c :: r2go n cs

/-- `re.sub(r'##\s*\*\*Team Performance Table\*\*', '', md)` (line 28). -/
def r2 (l : List Char) : List Char := r2go l.length l

/-- Consume the non-greedy `.*?\n` tail of a line: everything up to and
including the first newline; no match if none remains. -/
def afterLine : List Char → Option (List Char)
  | [] => none
  | '\n' :: cs => some cs
  | _ :: cs => afterLine cs

/-- Regex `^🎯\s*ALL CONVERSATIONS.*?\n` at the head of a line
(render.py line 32). -/
def tryGoal (l : List Char) : Option (List Char) :=
  match matchLit "🎯".data l with
  | none => none
  | some r =>
    match matchLit "ALL CONVERSATIONS".data (r.dropWhile isPySpace) with
    | none => none
    | some r2 => afterLine r2

def convLineRepl : List Char := "## 🎯 ALL CONVERSATIONS (Best to Worst)\n\n".data

def step3go : Nat → Bool → List Char → List Char
  | 0, _, l => l
  | _ + 1, _, [] => []
  | n + 1, atStart, c :: cs =>
    if atStart then
      match tryGoal (c :: cs) with
      | some rest => convLineRepl ++ step3go n true rest
      | none => c :: step3go n (c = '\n') cs
    else c :: step3go n (c = '\n') cs

/-- `re.sub(r'^🎯\s*ALL CONVERSATIONS.*?\n', '## 🎯 ALL CONVERSATIONS
(Best to Worst)\n\n', md, flags=re.MULTILINE)` (line 32); every matched
line ends with a newline, so scanning resumes at a line start. -/
def step3 (l : List Char) : List Char := step3go l.length true l

def tableMarker : List Char := "📊 TEAM PERFORMANCE TABLE".data
def tableHeader : List Char := "## 📊 TEAM PERFORMANCE TABLE\n\n".data
def convMarker : List Char := "🎯 ALL CONVERSATIONS".data
def hhhMarker : List Char := "###".data

/-- `re.sub(r'(###)', r'## 🎯 ALL CONVERSATIONS (Best to Worst)\n\n\1',
md, count=1)` (line 42): insert the header before the first `###`. -/
def insertConvHeader : List Char → List Char
  | [] => []
  | c :: cs =>
    if hhhMarker.isPrefixOf (c :: cs) then convLineRepl ++ c :: cs
    else c :: insertConvHeader cs

/-- The non-greedy capture `(.*?)\*\*` of line 45: the shortest run of
non-newline characters followed by `**`; fails at a newline or at the
end of the input. Returns the capture and the rest after the match. -/
def captureTo : List Char → Option (List Char × List Char)
  | [] => none
  | c :: cs =>
    if "**".data.isPrefixOf (c :: cs) then some ([], cs.drop 1)
    else if c = '\n' then none
    else
      match captureTo cs with
      | some (cap, rest) => some (c :: cap, rest)
      | none => none

/-- Regex `###\s*\*\*(.*?)\*\*` at the head of `l` (render.py line 45). -/
def tryH3 (l : List Char) : Option (List Char × List Char) :=
  match matchLit "###".data l with
  | none => none
  | some r =>
    match matchLit "**".data (r.dropWhile isPySpace) with
    | none => none
    | some r2 => captureTo r2

def step5go : Nat → List Char → List Char
  | 0, l => l
  | _ + 1, [] => []
  | n + 1, c :: cs =>
    match tryH3 (c :: cs) with
    | some (cap, rest) => "### ".data ++ cap ++ step5go n rest
    | none => c :: step5go n cs

/-- `re.sub(r'###\s*\*\*(.*?)\*\*', r'### \1', md)` (line 45). -/
def step5 (l : List Char) : List Char := step5go l.length l

/-- The markdown-normalization phase of `markdown_to_html` (render.py
lines 25-45), before the markdown library converts the result to HTML:
drop the two duplicate performance-table header variants, promote a
plain-text conversations line to a heading, prepend the canonical table
header when a table is present without one, insert the conversations
header before the first H3 when absent, and unwrap bold-wrapped H3
headings. -/
def mdNormalize (l : List Char) : List Char :=
  let a := r2 (r1 l)
  let b := step3 a
  let c := if !(hasSub tableMarker b) && hasSub ['|'] b then tableHeader ++ b else b
  let d := if !(hasSub convMarker c) && hasSub hhhMarker c then insertConvHeader c else c
  step5 d

example : mdNormalize "|".data = "## 📊 TEAM PERFORMANCE TABLE\n\n|".data := by decide

example :
    mdNormalize "**## TEAM PERFORMANCE TABLE**\n## **Team Performance Table**\nx|".data =
      "## 📊 TEAM PERFORMANCE TABLE\n\n\n\nx|".data := by decide

example :
    mdNormalize "### **** **x**".data =
      "## 🎯 ALL CONVERSATIONS (Best to Worst)\n\n###  **x**".data := by decide

/-! ### Template rendering (render.py lines 93-358)

The external MJML tool is invoked as a subprocess on the filled
template; its outcome is abstracted as a function of the payload.
Clock-derived metadata (generation date, date range for the `days`
window) enters as the strings the Python code computes from
`datetime.now`. -/

inductive SubprocOutcome where
  | notFound
  | timeout
  | exit (code : Int) (stdout stderr : String)

/-- `str(total_meetings or "N/A")`: Python `or` yields the default for
None and for 0. -/
def pyStrOrNA (t : Option Int) : String :=
  match t with
  | none => "N/A"
  | some n => if n = 0 then "N/A" else toString n

/-- Segments of the built-in fallback HTML layout of
`_render_simple_html` (render.py lines 161-321), split at its template
placeholders. -/
def tplPart1 : String :=
  "<!DOCTYPE html>\n<html>\n<head>\n    <meta charset=\"UTF-8\">\n    <meta name=\"viewport\" content=\"width=device-width, initial-scale=1.0\">\n    <title>UNKNOWN Brain — "

def tplPart2 : String :=
  "</title>\n    <style>\n        body \x7b\n            font-family: \x27Helvetica Neue\x27, Helvetica, Arial, sans-serif;\n            background-color: #f4f4f4;\n            margin: 0;\n            padding: 0;\n        \x7d\n        .container \x7b\n            max-width: 600px;\n            margin: 0 auto;\n            background-color: #ffffff;\n        \x7d\n        .header \x7b\n            text-align: center;\n            padding: 30px 20px 10px;\n        \x7d\n        .header h1 \x7b\n            font-size: 24px;\n            font-weight: 700;\n            margin: 0 0 10px 0;\n            color: #1a1a1a;\n        \x7d\n        .header .subtitle \x7b\n            font-size: 16px;\n            color: #666666;\n            margin: 0;\n        \x7d\n        .content \x7b\n            padding: 20px 30px 30px;\n            font-size: 15px;\n            color: #333333;\n            line-height: 1.7;\n        \x7d\n        .content h2 \x7b\n            font-size: 20px;\n            font-weight: 700;\n            margin: 30px 0 15px 0;\n            color: #1a1a1a;\n            border-bottom: 2px solid #0066cc;\n            padding-bottom: 8px;\n        \x7d\n        .content h3 \x7b\n            font-size: 17px;\n            font-weight: 700;\n            margin: 25px 0 12px 0;\n            color: #1a1a1a;\n        \x7d\n        .content h4 \x7b\n            font-size: 15px;\n            font-weight: 600;\n            margin: 18px 0 8px 0;\n            color: #2c2c2c;\n        \x7d\n        .content ul \x7b\n            margin: 10px 0 20px 0;\n            padding-left: 20px;\n        \x7d\n        .content li \x7b\n            margin-bottom: 8px;\n            line-height: 1.6;\n        \x7d\n        .content p \x7b\n            margin: 0 0 12px 0;\n        \x7d\n        .content strong, .content b \x7b\n            font-weight: 600;\n            color: #1a1a1a;\n        \x7d\n        .insight-card \x7b\n            background: #f8f9fa;\n            border-left: 4px solid #0066cc;\n            padding: 16px 20px;\n            margin: 20px 0;\n            border-radius: 4px;\n        \x7d\n        .insight-card h3 \x7b\n            margin-top: 0;\n            color: #0066cc;\n            font-size: 16px;\n        \x7d\n        .insight-card .evidence \x7b\n            font-style: italic;\n            color: #555;\n            margin: 8px 0;\n            font-size: 14px;\n        \x7d\n        .insight-card .tag \x7b\n            display: inline-block;\n            background: #e3f2fd;\n            color: #0066cc;\n            padding: 4px 12px;\n            border-radius: 12px;\n            font-size: 12px;\n            font-weight: 600;\n            margin-top: 8px;\n        \x7d\n        .metric \x7b\n            font-size: 28px;\n            font-weight: 700;\n            color: #0066cc;\n            line-height: 1.2;\n        \x7d\n        .metric-label \x7b\n            font-size: 13px;\n            color: #666;\n            text-transform: uppercase;\n            letter-spacing: 0.5px;\n            font-weight: 600;\n        \x7d\n        .content table \x7b\n            width: 100%;\n            border-collapse: collapse;\n            margin: 15px 0;\n        \x7d\n        .content th \x7b\n            background: #f8f8f8;\n            padding: 10px;\n            text-align: left;\n            font-weight: 600;\n            border-bottom: 2px solid #e0e0e0;\n        \x7d\n        .content td \x7b\n            padding: 10px;\n            border-bottom: 1px solid #f0f0f0;\n        \x7d\n        .footer \x7b\n            font-size: 12px;\n            color: #999999;\n            margin-top: 30px;\n            padding: 20px 30px 30px;\n            border-top: 1px solid #e0e0e0;\n            text-align: center;\n        \x7d\n    </style>\n</head>\n<body>\n    <div class=\"container\">\n        <div class=\"header\">\n            <h1>UNKNOWN Brain</h1>\n            <p class=\"subtitle\">"

def tplPart3 : String :=
  "</p>\n            <p style=\"font-size: 12px; color: #999; margin-top: 5px;\">\n                🤖 Automated Intelligence | Generated "

def tplPart4 : String :=
  "\n            </p>\n        </div>\n        <div class=\"content\">\n            "

def tplPart5 : String :=
  "\n        </div>\n        <div class=\"footer\">\n            🤖 Automated UNKNOWN Brain Report<br/>\n            Analysis Period: "

def tplPart6 : String :=
  "<br/>\n            Generated from "

def tplPart7 : String :=
  " qualified meetings | Internal use only\n        </div>\n    </div>\n</body>\n</html>"

/-- `_render_simple_html` (render.py lines 143-330): the built-in
fallback layout with the Jinja substitutions applied. -/
def _render_simple_html (content_html mode : String) (total_meetings : Option Int)
    (current_date date_range : String) : String :=
  let subtitle :=
    if mode = "insights" then "Weekly Insights Report"
    else if mode = "coaching" then "Calls & Coaching Report"
    else "Weekly Update"
  tplPart1 ++ subtitle ++ tplPart2 ++ subtitle ++ tplPart3 ++ current_date ++
    tplPart4 ++ content_html ++ tplPart5 ++ date_range ++
    tplPart6 ++ pyStrOrNA total_meetings ++ tplPart7

/-- `render_mjml_to_html` (render.py lines 93-140): `tmpl` is the
outcome of reading the MJML template file (none = any read error);
on a zero exit status the subprocess stdout is returned, and every
other outcome falls back to the built-in layout. -/
def render_mjml_to_html (tmpl : Option String) (content_html mode : String)
    (total_meetings : Option Int) (current_date date_range : String)
    (sub : String → SubprocOutcome) : String :=
  match tmpl with
  | none => _render_simple_html content_html mode total_meetings current_date date_range
  | some t =>
    let filled :=
      (((t.replace "{{ content }}" content_html).replace
          "{{ current_date }}" current_date).replace
          "{{ date_range }}" date_range).replace
          "{{ total_meetings }}" (pyStrOrNA total_meetings)
    match sub filled with
    | .exit code stdout _ =>
      if code = 0 then stdout
      else _render_simple_html content_html mode total_meetings current_date date_range
    | .timeout => _render_simple_html content_html mode total_meetings current_date date_range
    | .notFound => _render_simple_html content_html mode total_meetings current_date date_range

/-- `render_email` (render.py lines 333-358). `toHtml` stands for
`markdown_to_html`, whose final HTML conversion runs through the
external markdown library; `tmplExists` is the `mjml_path.exists()`
test, whose template file (when it exists) is read as `tmpl`. -/
def render_email (toHtml : String → String) (mode markdown_content : String)
    (total_meetings : Option Int) (current_date date_range : String)
    (tmplExists : Bool) (tmpl : Option String) (sub : String → SubprocOutcome) : String :=
  let content_html := toHtml markdown_content
  if !tmplExists then
    _render_simple_html content_html mode total_meetings current_date date_range
  else
    render_mjml_to_html tmpl content_html mode total_meetings current_date date_range sub

/-! ### Generic lemmas about the helpers -/

theorem pyOr_ne_empty (c : Option String) (dflt : String) (h : dflt ≠ "") :
    pyOr c dflt ≠ "" := by
  match c with
  | none => simpa [pyOr]
  | some t =>
    by_cases ht : t = "" <;> simp [pyOr, ht, h]

theorem strData_append_ne_nil (s t : String) (h : s.data ≠ []) : (s ++ t).data ≠ [] := by
  rw [String.data_append]
  intro hc
  exact h (List.append_eq_nil.mp hc).1

theorem ne_empty_of_data_ne_nil (s : String) (h : s.data ≠ []) : s ≠ "" := by
  intro hc
  rw [hc] at h
  exact h rfl

theorem append_ne_empty_left (s t : String) (h : s.data ≠ []) : s ++ t ≠ "" :=
  ne_empty_of_data_ne_nil _ (strData_append_ne_nil s t h)

theorem substrOf_self (t : String) : SubstrOf t t :=
  ⟨[], [], by simp⟩

theorem substrOf_appendL {t s : String} (u : String) (h : SubstrOf t s) :
    SubstrOf t (s ++ u) := by
  obtain ⟨a, b, hab⟩ := h
  exact ⟨a, b ++ u.data, by simp [String.data_append, hab]⟩

theorem substrOf_appendR {t u : String} (s : String) (h : SubstrOf t u) :
    SubstrOf t (s ++ u) := by
  obtain ⟨a, b, hab⟩ := h
  exact ⟨s.data ++ a, b, by simp [String.data_append, hab]⟩

theorem substrOf_pref (t u : String) : SubstrOf t (t ++ u) :=
  substrOf_appendL u (substrOf_self t)

/-! ### C3: what counts as a failed generation call -/

/-- A concrete processed meeting for counterexamples and witnesses. -/
def mkPM (client tm date : String) (score : Int) : PMeeting :=
  ⟨client, tm, date, score, "Client Meeting", "", "", "", "", "", [], [], "", "#"⟩

/-- C3 counterexample: a conversation-card batch whose call returns
empty text contributes the empty string to the section output — not the
batch's fallback cards, which are nonempty. This refutes the claim that
an empty returned text is treated as a failure for card batches. -/
theorem c3_counterexample_empty_batch :
    _generate_all_conversations_concurrent [mkPM "Acme" "Ann" "2025-01-01" 5]
        (fun _ => .returns (some "")) = ""
      ∧ _fallback_conversation_card (mkPM "Acme" "Ann" "2025-01-01" 5) ≠ "" := by
  constructor
  · decide
  · decide

/-- C3 (amended): a generation call is treated as failed when the
transport raises; for the single-call sections a returned text that is
None or empty also falls back, but whitespace-only text is used as-is,
and a conversation-card batch whose call returns empty or None text
contributes `content or ""` — the empty string, not fallback cards. -/
theorem c3_failure_handling :
    (∀ batch : List PMeeting,
        _generate_conversation_batch batch .raises =
          pyJoin "\n---\n" (batch.map _fallback_conversation_card))
    ∧ (∀ (batch : List PMeeting) (c : Option String),
        _generate_conversation_batch batch (.returns c) = pyOr c "")
    ∧ (∀ P : ProcessedData,
        _generate_executive_summary P .raises = _fallback_executive_summary P)
    ∧ (∀ P : ProcessedData,
        _generate_executive_summary P (.returns none) = _fallback_executive_summary P)
    ∧ (∀ P : ProcessedData,
        _generate_executive_summary P (.returns (some "")) = _fallback_executive_summary P)
    ∧ (∀ (P : ProcessedData) (s : String), s ≠ "" →
        _generate_executive_summary P (.returns (some s)) = s) := by
  refine ⟨fun _ => rfl, fun _ _ => rfl, fun _ => rfl, fun _ => rfl, ?_, ?_⟩
  · intro P
    simp [_generate_executive_summary, pyOr]
  · intro P s hs
    simp [_generate_executive_summary, pyOr, hs]

/-- C3 witness: whitespace-only returned text is kept verbatim. -/
theorem c3_failure_handling_witness :
    (" " ≠ "") ∧
      _generate_executive_summary (_process_client_meetings {}) (.returns (some " ")) = " " :=
  ⟨by decide, c3_failure_handling.2.2.2.2.2 _ " " (by decide)⟩

/-! ### C4: the client fallback chain -/

/-- C4 counterexample: a record whose top-level client is empty and
whose nested object carries an empty client label normalizes to the
empty string, refuting the invariant that the client is never empty. -/
theorem c4_counterexample_nested_empty :
    (processMeeting { client := some "", client_info := .dict (some "") }).client = "" := by
  decide

/-- C4 (amended): the client label is resolved through the ordered
chain — a nonempty, non-sentinel top-level field wins; a falsy or
sentinel top-level field defers to the nested object, then to the
parsed string-encoded structure, each defaulting to the sentinel for a
missing key; a parse failure (or a parsed non-object) leaves the
top-level value. An empty client with no nested fallback yields the
sentinel, but the normalized client is not always nonempty: the nested
object may itself carry an empty label. -/
theorem c4_client_resolution :
    (∀ m : RawMeeting, m.client = some "" → m.client_info = .absent →
        resolve_client m = "Unknown Client")
    ∧ (∀ (m : RawMeeting) (c : String), m.client = some c → c ≠ "" → c ≠ "Unknown Client" →
        resolve_client m = c)
    ∧ (∀ (m : RawMeeting) (d : Option String),
        (m.client = none ∨ m.client = some "" ∨ m.client = some "Unknown Client") →
        m.client_info = .dict d → resolve_client m = d.getD "Unknown Client")
    ∧ (∀ (m : RawMeeting) (d : Option String),
        (m.client = none ∨ m.client = some "" ∨ m.client = some "Unknown Client") →
        m.client_info = .str (.obj d) → resolve_client m = d.getD "Unknown Client")
    ∧ (∀ m : RawMeeting,
        (m.client = none ∨ m.client = some "" ∨ m.client = some "Unknown Client") →
        m.client_info = .str .parseError →
        resolve_client m = (m.client.getD "Unknown Client")) := by
  refine ⟨?_, ?_, ?_, ?_, ?_⟩
  · intro m hc hi
    simp [resolve_client, hc, hi]
  · intro m c hc h1 h2
    simp [resolve_client, hc, h1, h2]
  · intro m d hc hi
    rcases hc with h | h | h <;> simp [resolve_client, h, hi]
  · intro m d hc hi
    rcases hc with h | h | h <;> simp [resolve_client, h, hi]
  · intro m hc hi
    rcases hc with h | h | h <;> simp [resolve_client, h, hi]

/-- C4 witness: the spec scenario — empty client, no nested fallback —
normalizes to the sentinel label. -/
theorem c4_client_resolution_witness :
    resolve_client { client := some "", client_info := .absent } = "Unknown Client" :=
  c4_client_resolution.1 { client := some "", client_info := .absent } rfl rfl

/-! ### C7: total report composition -/

theorem fallback_executive_summary_ne (P : ProcessedData) :
    _fallback_executive_summary P ≠ "" := by
  simp only [_fallback_executive_summary]
  exact append_ne_empty_left _ _
    (strData_append_ne_nil _ _ (strData_append_ne_nil _ _ (strData_append_ne_nil _ _
      (by decide))))

theorem fallback_performance_table_ne (P : ProcessedData) :
    _fallback_performance_table P ≠ "" := by
  simp only [_fallback_performance_table]
  exact append_ne_empty_left _ _
    (strData_append_ne_nil _ _ (strData_append_ne_nil _ _ (strData_append_ne_nil _ _
      (strData_append_ne_nil _ _ (strData_append_ne_nil _ _ (by decide))))))

theorem generate_executive_summary_ne (P : ProcessedData) (o : CallOutcome) :
    _generate_executive_summary P o ≠ "" := by
  match o with
  | .raises => exact fallback_executive_summary_ne P
  | .returns c => exact pyOr_ne_empty c _ (fallback_executive_summary_ne P)

theorem generate_performance_table_ne (P : ProcessedData) (o : CallOutcome) :
    _generate_performance_table P o ≠ "" := by
  match o with
  | .raises => exact fallback_performance_table_ne P
  | .returns c => exact pyOr_ne_empty c _ (fallback_performance_table_ne P)

theorem generate_team_coaching_ne (P : ProcessedData) (o : CallOutcome) :
    _generate_team_coaching P o ≠ "" := by
  have hfb : _fallback_team_coaching ≠ "" :=
    ne_empty_of_data_ne_nil _fallback_team_coaching (by decide)
  match o with
  | .raises => exact hfb
  | .returns c => exact pyOr_ne_empty c _fallback_team_coaching hfb

/-- C7: report composition is total. For every input dataset (zero
meetings included) and every combination of call outcomes — including
any calls raising — the report is the fixed-order concatenation of the
four sections, each of the three hard-headed sections appears, the team
coaching text appears, no section is empty, and the document is
nonempty. -/
theorem c7_report_total (d : InputData) (oExec oPerf oCoach : CallOutcome)
    (oConv : Nat → CallOutcome) :
    generate_insights_v2 d oExec oPerf oCoach oConv =
      pyJoin "\n\n"
        ["## 📊 EXECUTIVE SUMMARY\n\n" ++
            _generate_executive_summary (_process_client_meetings d) oExec,
          "## 📊 TEAM PERFORMANCE TABLE\n\n" ++
            _generate_performance_table (_process_client_meetings d) oPerf,
          "## 🎯 ALL CONVERSATIONS (Best to Worst)\n\n" ++
            _generate_all_conversations_concurrent
              (_process_client_meetings d).meetings oConv,
          _generate_team_coaching (_process_client_meetings d) oCoach]
    ∧ SubstrOf "## 📊 EXECUTIVE SUMMARY" (generate_insights_v2 d oExec oPerf oCoach oConv)
    ∧ SubstrOf "## 📊 TEAM PERFORMANCE TABLE" (generate_insights_v2 d oExec oPerf oCoach oConv)
    ∧ SubstrOf "## 🎯 ALL CONVERSATIONS (Best to Worst)"
        (generate_insights_v2 d oExec oPerf oCoach oConv)
    ∧ SubstrOf (_generate_team_coaching (_process_client_meetings d) oCoach)
        (generate_insights_v2 d oExec oPerf oCoach oConv)
    ∧ _generate_executive_summary (_process_client_meetings d) oExec ≠ ""
    ∧ _generate_performance_table (_process_client_meetings d) oPerf ≠ ""
    ∧ _generate_team_coaching (_process_client_meetings d) oCoach ≠ ""
    ∧ generate_insights_v2 d oExec oPerf oCoach oConv ≠ "" := by
  have hshape : generate_insights_v2 d oExec oPerf oCoach oConv =
      pyJoin "\n\n"
        ["## 📊 EXECUTIVE SUMMARY\n\n" ++
            _generate_executive_summary (_process_client_meetings d) oExec,
          "## 📊 TEAM PERFORMANCE TABLE\n\n" ++
            _generate_performance_table (_process_client_meetings d) oPerf,
          "## 🎯 ALL CONVERSATIONS (Best to Worst)\n\n" ++
            _generate_all_conversations_concurrent
              (_process_client_meetings d).meetings oConv,
          _generate_team_coaching (_process_client_meetings d) oCoach] := rfl
  refine ⟨hshape, ?_, ?_, ?_, ?_,
    generate_executive_summary_ne _ _, generate_performance_table_ne _ _,
    generate_team_coaching_ne _ _, ?_⟩
  · rw [hshape]
    simp only [pyJoin]
    exact substrOf_appendL _ (substrOf_appendL _ (substrOf_appendL _ (substrOf_pref _ _)))
  · rw [hshape]
    simp only [pyJoin]
    exact substrOf_appendR _ (substrOf_appendL _ (substrOf_appendL _
      (substrOf_appendL _ (substrOf_pref _ _))))
  · rw [hshape]
    simp only [pyJoin]
    exact substrOf_appendR _ (substrOf_appendR _ (substrOf_appendL _
      (substrOf_appendL _ (substrOf_appendL _ (substrOf_pref _ _)))))
  · rw [hshape]
    simp only [pyJoin]
    exact substrOf_appendR _ (substrOf_appendR _ (substrOf_appendR _ (substrOf_self _)))
  · rw [hshape]
    simp only [pyJoin]
    exact append_ne_empty_left _ _ (strData_append_ne_nil _ _
      (strData_append_ne_nil _ _ (by decide)))

/-! ### C5 and C10: aggregation invariants and averages -/

/-- Invariant tying a team-stats entry to its recorded mini-meetings. -/
def StatsInv (e : String × MemberStats) : Prop :=
  e.2.count = e.2.meetings.length
  ∧ e.2.total = (e.2.meetings.map (fun t => t.2.2)).sum
  ∧ 0 < e.2.count

theorem upsert_counts (pm : PMeeting) :
    ∀ acc : List (String × MemberStats),
      ((upsert pm acc).map (fun e => e.2.count)).sum
        = ((acc.map (fun e => e.2.count)).sum) + 1
  | [] => by simp [upsert, addMeeting, emptyStats]
  | (k, s) :: rest => by
    by_cases h : k = pm.team_member
    · simp only [upsert, h, if_true, List.map_cons, List.sum_cons, addMeeting]
      omega
    · simp only [upsert, h, if_false, List.map_cons, List.sum_cons, upsert_counts pm rest]
      omega

theorem upsert_inv (pm : PMeeting) :
    ∀ acc : List (String × MemberStats), (∀ e ∈ acc, StatsInv e) →
      ∀ e ∈ upsert pm acc, StatsInv e
  | [], _ => by
    intro e he
    simp only [upsert, List.mem_singleton] at he
    subst he
    simp [StatsInv, addMeeting, emptyStats, statEntry]
  | (k, s) :: rest, hacc => by
    intro e he
    by_cases h : k = pm.team_member
    · simp only [upsert, h, if_true, List.mem_cons] at he
      rcases he with he | he
      · subst he
        have hs : StatsInv (k, s) := hacc _ (by simp)
        obtain ⟨h1, h2, h3⟩ := hs
        simp only [StatsInv] at h1 h2 h3 ⊢
        refine ⟨?_, ?_, ?_⟩
        · simp [addMeeting, h1]
        · simp [addMeeting, h2, statEntry, List.map_append, List.sum_append]
        · simp [addMeeting]
      · exact hacc _ (by simp [he])
    · simp only [upsert, h, if_false, List.mem_cons] at he
      rcases he with he | he
      · subst he
        exact hacc _ (by simp)
      · exact upsert_inv pm rest (fun e' he' => hacc _ (by simp [he'])) e he

theorem foldl_upsert_counts :
    ∀ (l : List PMeeting) (acc : List (String × MemberStats)),
      (((l.foldl (fun a pm => upsert pm a) acc)).map (fun e => e.2.count)).sum
        = ((acc.map (fun e => e.2.count)).sum) + l.length
  | [], acc => by simp
  | pm :: t, acc => by
    simp only [List.foldl_cons, List.length_cons]
    rw [foldl_upsert_counts t (upsert pm acc), upsert_counts pm acc]
    omega

theorem foldl_upsert_inv :
    ∀ (l : List PMeeting) (acc : List (String × MemberStats)),
      (∀ e ∈ acc, StatsInv e) →
      ∀ e ∈ l.foldl (fun a pm => upsert pm a) acc, StatsInv e
  | [], _, hacc => hacc
  | pm :: t, acc, hacc =>
    foldl_upsert_inv t (upsert pm acc) (upsert_inv pm acc hacc)

theorem buildStats_counts (pms : List PMeeting) :
    ((buildStats pms).map (fun e => e.2.count)).sum = pms.length := by
  have := foldl_upsert_counts pms []
  simpa [buildStats] using this

theorem buildStats_inv (pms : List PMeeting) :
    ∀ e ∈ buildStats pms, StatsInv e :=
  foldl_upsert_inv pms [] (by simp)

theorem setAverage_count (e : String × MemberStats) :
    (setAverage e).2.count = e.2.count := by
  unfold setAverage
  split <;> rfl

theorem setAverage_total (e : String × MemberStats) :
    (setAverage e).2.total = e.2.total := by
  unfold setAverage
  split <;> rfl

theorem setAverage_meetings (e : String × MemberStats) :
    (setAverage e).2.meetings = e.2.meetings := by
  unfold setAverage
  split <;> rfl

theorem setAverage_avg (e : String × MemberStats) (h : 0 < e.2.count) :
    (setAverage e).2.average = some (pyRound1 ((e.2.total : ℚ) / (e.2.count : ℚ))) := by
  simp [setAverage, h]

/-- C10: in the processed dataset the per-member counts sum to
`total_meetings`, each member's running total is the sum of the scores
recorded in that member's meeting list (whose length is the count),
every member entry has a positive count and hence a derived average,
and the qualified count never exceeds the total. -/
theorem c10_aggregation_invariants (d : InputData) :
    (((_process_client_meetings d).team_performance.map (fun e => e.2.count)).sum
        = (_process_client_meetings d).total_meetings)
    ∧ ((_process_client_meetings d).team_performance.Forall (fun e =>
        e.2.total = (e.2.meetings.map (fun t => t.2.2)).sum
        ∧ e.2.count = e.2.meetings.length
        ∧ 0 < e.2.count
        ∧ e.2.average.isSome))
    ∧ (_process_client_meetings d).qualified_meetings
        ≤ (_process_client_meetings d).total_meetings := by
  refine ⟨?_, ?_, ?_⟩
  · show (((buildStats _).map setAverage).map (fun e => e.2.count)).sum = _
    rw [List.map_map]
    have hc : ((fun e : String × MemberStats => e.2.count) ∘ setAverage)
        = fun e => e.2.count := funext fun e => setAverage_count e
    rw [hc, buildStats_counts]
    rfl
  · rw [List.forall_iff_forall_mem]
    intro e he
    show _ ∧ _ ∧ _ ∧ _
    have : ∃ e' ∈ buildStats ((if d.now_pipeline.isEmpty then d.sample_meetings
        else d.now_pipeline).map processMeeting), setAverage e' = e := by
      simpa [_process_client_meetings] using List.mem_map.mp he
    obtain ⟨e', he', rfl⟩ := this
    obtain ⟨h1, h2, h3⟩ := buildStats_inv _ e' he'
    refine ⟨?_, ?_, ?_, ?_⟩
    · rw [setAverage_total, setAverage_meetings]; exact h2
    · rw [setAverage_count, setAverage_meetings]; exact h1
    · rw [setAverage_count]; exact h3
    · rw [setAverage_avg e' h3]; rfl
  · exact List.length_filter_le _ _

theorem scoresSum_cast (ms : List (String × String × Int)) :
    (((ms.map (fun t => t.2.2)).sum : ℤ) : ℚ) = (ms.map (fun t => (t.2.2 : ℚ))).sum := by
  induction ms with
  | nil => simp
  | cons a t ih => simp [ih]

theorem pmScoresSum_cast (l : List PMeeting) :
    (l.map (fun m => (m.score : ℚ))).sum = (((l.map (fun m => m.score)).sum : ℤ) : ℚ) := by
  induction l with
  | nil => simp
  | cons a t ih => simp [ih]

/-! ### Binary64 rounding analysis

The lemmas below relate `pyRound1` (the source's rounding of the binary64
quotient) to `round1` (one-decimal half-to-even rounding of the exact
mean): away from exact one-decimal ties the two agree for bounded
denominators, while at a tie not representable in binary the results can
differ (see the C5 theorems). -/

theorem roundHalfEven_ite (q : ℚ) :
    roundHalfEven q =
      if q - (⌊q⌋ : ℚ) < 1/2 then ⌊q⌋
      else if (1 : ℚ)/2 < q - (⌊q⌋ : ℚ) then ⌊q⌋ + 1
      else if ⌊q⌋ % 2 = 0 then ⌊q⌋ else ⌊q⌋ + 1 := rfl

theorem abs_roundHalfEven_sub_le (q : ℚ) : |(roundHalfEven q : ℚ) - q| ≤ 1/2 := by
  have h1 : (⌊q⌋ : ℚ) ≤ q := Int.floor_le q
  have h2 : q < ⌊q⌋ + 1 := Int.lt_floor_add_one q
  rw [roundHalfEven_ite]
  split_ifs with ha hb hc <;> (rw [abs_le] ; constructor <;> push_cast <;> linarith)

theorem roundHalfEven_eq_of_lt (q : ℚ) (k : ℤ) (hlo : (k:ℚ) - 1/2 < q)
    (hhi : q < (k:ℚ) + 1/2) : roundHalfEven q = k := by
  have hfl : ⌊q⌋ = k ∨ ⌊q⌋ = k - 1 := by
    have ha : ⌊q⌋ < k + 1 := by
      rw [Int.floor_lt]
      push_cast
      linarith
    have hb : k - 1 ≤ ⌊q⌋ := by
      rw [Int.le_floor]
      push_cast
      linarith
    omega
  rw [roundHalfEven_ite]
  rcases hfl with h | h
  · rw [h]
    split_ifs with ha hb hc
    · rfl
    · exfalso ; linarith
    · rfl
    · exfalso ; linarith
  · rw [h]
    push_cast at *
    split_ifs with ha hb hc
    · exfalso ; linarith
    · omega
    · exfalso ; linarith
    · omega

theorem roundHalfEven_strict (q : ℚ) (h : ∀ k : ℤ, q ≠ (k:ℚ) + 1/2) :
    ((roundHalfEven q : ℚ) - 1/2 < q) ∧ (q < (roundHalfEven q : ℚ) + 1/2) := by
  have h1 : (⌊q⌋ : ℚ) ≤ q := Int.floor_le q
  have h2 : q < ⌊q⌋ + 1 := Int.lt_floor_add_one q
  have hne : q ≠ (⌊q⌋ : ℚ) + 1/2 := h ⌊q⌋
  rw [roundHalfEven_ite]
  split_ifs with ha hb hc <;> constructor <;> push_cast <;>
    first
      | linarith
      | (exfalso ; apply hne ; linarith)

theorem int_log2_eq_of_bounds (q : ℚ) (e : ℤ) (h0 : 0 < q) (h1 : 2 ^ e ≤ q)
    (h2 : q < 2 ^ (e + 1)) : Int.log 2 q = e := by
  refine le_antisymm ?_ ?_
  · by_contra h
    push_neg at h
    have h3 : (2:ℚ) ^ (e + 1) ≤ 2 ^ (Int.log 2 q) :=
      zpow_le_zpow_right₀ (by norm_num) (by omega)
    have h4 : ((2:ℕ):ℚ) ^ (Int.log 2 q) ≤ q :=
      Int.zpow_log_le_self (b := 2) (r := q) (by norm_num) h0
    rw [Nat.cast_ofNat] at h4
    linarith
  · have h5 : (q : ℚ) < ((2:ℕ):ℚ) ^ (Int.log 2 q + 1) :=
      Int.lt_zpow_succ_log_self (b := 2) (by norm_num) q
    rw [Nat.cast_ofNat] at h5
    by_contra h
    push_neg at h
    have h6 : (2:ℚ) ^ (Int.log 2 q + 1) ≤ 2 ^ e :=
      zpow_le_zpow_right₀ (by norm_num) (by omega)
    linarith

theorem nearestDouble_eq_of_bounds (q : ℚ) (e : ℤ) (h0 : 0 < q) (h1 : 2 ^ e ≤ q)
    (h2 : q < 2 ^ (e + 1)) (he : -1022 ≤ e) :
    nearestDouble q = (roundHalfEven (q * 2 ^ ((52:ℤ) - e)) : ℚ) / 2 ^ ((52:ℤ) - e) := by
  unfold nearestDouble
  rw [if_neg (ne_of_gt h0), abs_of_pos h0, int_log2_eq_of_bounds q e h0 h1 h2,
    max_eq_left he]

theorem nearestDouble_err (q : ℚ) (h0 : 0 < q) (h8 : q < 8) :
    |nearestDouble q - q| ≤ 1 / 2 ^ 51 := by
  have hlog : Int.log 2 q ≤ 2 := by
    by_contra h
    push_neg at h
    have h3 : (2:ℚ) ^ (3:ℤ) ≤ 2 ^ (Int.log 2 q) :=
      zpow_le_zpow_right₀ (by norm_num) (by omega)
    have h4 : ((2:ℕ):ℚ) ^ (Int.log 2 q) ≤ q :=
      Int.zpow_log_le_self (b := 2) (r := q) (by norm_num) h0
    rw [Nat.cast_ofNat] at h4
    norm_num at h3
    linarith
  unfold nearestDouble
  rw [if_neg (ne_of_gt h0), abs_of_pos h0]
  set e' : ℤ := max (Int.log 2 q) (-1022) with hedef
  have he2 : e' ≤ 2 := by
    rw [hedef]
    exact max_le hlog (by norm_num)
  set s : ℤ := 52 - e' with hsdef
  have hs50 : (50:ℤ) ≤ s := by omega
  have hpow : (0:ℚ) < 2 ^ s := by positivity
  have hkey : (roundHalfEven (q * 2 ^ s) : ℚ) / 2 ^ s - q
      = ((roundHalfEven (q * 2 ^ s) : ℚ) - q * 2 ^ s) / 2 ^ s := by
    field_simp
    ring
  rw [hkey, abs_div, abs_of_pos hpow]
  have hb := abs_roundHalfEven_sub_le (q * 2 ^ s)
  have h1 : |(roundHalfEven (q * 2 ^ s) : ℚ) - q * 2 ^ s| / 2 ^ s ≤ (1/2) / 2 ^ s := by
    gcongr
  have hfin : (1:ℚ)/2 / 2 ^ s ≤ 1 / 2 ^ 51 := by
    rw [div_div]
    apply one_div_le_one_div_of_le (by norm_num)
    calc ((2:ℚ) ^ (51:ℕ)) = 2 ^ (51:ℤ) := by norm_num
    _ ≤ 2 ^ (s + 1) := zpow_le_zpow_right₀ (by norm_num) (by omega)
    _ = 2 * 2 ^ s := by
        rw [zpow_add_one₀ (by norm_num : (2:ℚ) ≠ 0)]
        ring
  linarith

theorem tieAt_iff (t : ℤ) (c : ℕ) (hc : 0 < c) :
    tieAt t c ↔ ∃ j : ℤ, 20 * t = (2 * j + 1) * (c:ℤ) := by
  constructor
  · intro h
    refine ⟨(20 * t) / (2 * (c:ℤ)), ?_⟩
    have hdm := Int.ediv_add_emod (20 * t) (2 * (c:ℤ))
    rw [h] at hdm
    linarith [hdm]
  · rintro ⟨j, hj⟩
    unfold tieAt
    have h1 : 20 * t = (c:ℤ) + (2 * (c:ℤ)) * j := by linarith
    rw [h1, Int.add_mul_emod_self_left]
    exact Int.emod_eq_of_lt (by omega) (by omega)

theorem tie_gap (t : ℤ) (c : ℕ) (hc : 0 < c) (hnt : ¬ tieAt t c) (k : ℤ) :
    1 / (2 * (c:ℚ)) ≤ |(t:ℚ) / (c:ℚ) * 10 - ((k:ℚ) + 1/2)| := by
  have hcQ : (0:ℚ) < (c:ℚ) := by exact_mod_cast hc
  set N : ℤ := 20 * t - (2 * k + 1) * (c:ℤ) with hN
  have hN0 : N ≠ 0 := by
    intro h
    apply hnt
    rw [tieAt_iff t c hc]
    exact ⟨k, by omega⟩
  have heq : (t:ℚ) / (c:ℚ) * 10 - ((k:ℚ) + 1/2) = (N:ℚ) / (2 * (c:ℚ)) := by
    rw [hN]
    push_cast
    field_simp
    ring
  rw [heq, abs_div, abs_of_pos (show (0:ℚ) < 2 * (c:ℚ) by positivity)]
  have h1 : (1:ℚ) ≤ |(N:ℚ)| := by
    have h2 := Int.one_le_abs hN0
    calc (1:ℚ) = ((1:ℤ):ℚ) := by norm_num
    _ ≤ ((|N|:ℤ):ℚ) := by exact_mod_cast h2
    _ = |(N:ℚ)| := by push_cast ; rfl
  gcongr

/-- Away from exact one-decimal ties, rounding the binary64 quotient
agrees with one-decimal rounding of the exact mean, for numerators `0 ≤ t
≤ 5 c` and denominators `c ≤ 2^45`: the double error (at most `2^-51`)
cannot cross a half-integer boundary whose distance is at least
`1/(2c) ≥ 2^-46`. -/
theorem pyRound1_eq_round1 (t : ℤ) (c : ℕ) (hc : 0 < c) (hcB : (c:ℤ) ≤ 2 ^ 45)
    (ht0 : 0 ≤ t) (ht5 : t ≤ 5 * (c:ℤ)) (hnt : ¬ tieAt t c) :
    pyRound1 ((t:ℚ) / (c:ℚ)) = round1 ((t:ℚ) / (c:ℚ)) := by
  have hcQ : (0:ℚ) < (c:ℚ) := by exact_mod_cast hc
  rcases eq_or_lt_of_le ht0 with h | hpos
  · rw [← h]
    norm_num [pyRound1, round1, nearestDouble]
  · set q : ℚ := (t:ℚ) / (c:ℚ) with hq
    have hq0 : 0 < q := div_pos (by exact_mod_cast hpos) hcQ
    have hq5 : q ≤ 5 := by
      rw [hq, div_le_iff₀ hcQ]
      exact_mod_cast ht5
    have hq8 : q < 8 := by linarith
    have herr := nearestDouble_err q hq0 hq8
    set f : ℚ := nearestDouble q with hf
    set X : ℚ := q * 10 with hX
    set Y : ℚ := f * 10 with hY
    have herr10 : |Y - X| ≤ 10 / 2 ^ 51 := by
      have h1 : |Y - X| = |f - q| * 10 := by
        rw [hY, hX, ← sub_mul, abs_mul]
        norm_num
      rw [h1]
      calc |f - q| * 10 ≤ (1 / 2 ^ 51) * 10 := by gcongr
      _ = 10 / 2 ^ 51 := by ring
    have hnontie : ∀ j : ℤ, X ≠ (j:ℚ) + 1/2 := by
      intro j hj
      apply hnt
      rw [tieAt_iff t c hc]
      refine ⟨j, ?_⟩
      rw [hX, hq] at hj
      have h2 : (t:ℚ) * 20 = (2 * (j:ℚ) + 1) * (c:ℚ) := by
        field_simp at hj
        linarith
      exact_mod_cast (by push_cast ; linarith : ((20 * t : ℤ):ℚ) = (((2 * j + 1) * (c:ℤ) : ℤ):ℚ))
    set k : ℤ := roundHalfEven X with hk
    have hstrict := roundHalfEven_strict X hnontie
    have hgapU := tie_gap t c hc hnt k
    have hgapL := tie_gap t c hc hnt (k - 1)
    rw [← hq, ← hX] at hgapU hgapL
    rw [← hk] at hstrict
    have hU : X ≤ (k:ℚ) + 1/2 - 1/(2 * (c:ℚ)) := by
      have h1 : |X - ((k:ℚ) + 1/2)| = ((k:ℚ) + 1/2) - X := by
        rw [abs_of_nonpos (by linarith [hstrict.2])]
        ring
      rw [h1] at hgapU
      linarith
    have hL : (k:ℚ) - 1/2 + 1/(2 * (c:ℚ)) ≤ X := by
      have hcast : (((k - 1 : ℤ)):ℚ) + 1/2 = (k:ℚ) - 1/2 := by
        push_cast
        ring
      rw [hcast] at hgapL
      have h1 : |X - ((k:ℚ) - 1/2)| = X - ((k:ℚ) - 1/2) := by
        rw [abs_of_nonneg (by linarith [hstrict.1])]
      rw [h1] at hgapL
      linarith
    have hcB46 : (1:ℚ)/2^46 ≤ 1/(2 * (c:ℚ)) := by
      apply one_div_le_one_div_of_le (by positivity)
      have : (c:ℚ) ≤ 2^45 := by exact_mod_cast hcB
      norm_num
      linarith
    have hnum : (1:ℚ)/2^46 = 32/2^51 := by norm_num
    have habs := abs_le.mp herr10
    have hYk : roundHalfEven Y = k := by
      apply roundHalfEven_eq_of_lt
      · have : (10:ℚ)/2^51 < 32/2^51 := by norm_num
        linarith
      · have : (10:ℚ)/2^51 < 32/2^51 := by norm_num
        linarith
    show (roundHalfEven (f * 10) : ℚ) / 10 = (roundHalfEven (q * 10) : ℚ) / 10
    rw [← hX, ← hY, ← hk, hYk]

theorem nearestDouble_93_20 : nearestDouble ((93:ℚ)/20) = 5235434566818202 / 2 ^ 50 := by
  rw [show ((2:ℚ) ^ (50:ℕ) : ℚ) = ((2:ℚ) ^ ((52:ℤ) - 2)) by norm_num]
  rw [nearestDouble_eq_of_bounds ((93:ℚ)/20) 2 (by norm_num) (by norm_num) (by norm_num)
    (by norm_num)]
  norm_num [roundHalfEven_ite]

/-- The double nearest 93/20 = 4.65 lies above the decimal tie, so the
source rounds it up to 4.7. -/
theorem pyRound1_93_20 : pyRound1 ((93:ℚ)/20) = 47/10 := by
  unfold pyRound1
  rw [nearestDouble_93_20]
  norm_num [roundHalfEven_ite]

/-- Half-to-even rounding of the exact mean 4.65 gives 4.6 = 23/5. -/
theorem round1_93_20 : round1 ((93:ℚ)/20) = 23/5 := by
  norm_num [round1, roundHalfEven_ite]

theorem pyRound1_14_3 : pyRound1 ((14:ℚ)/3) = 47/10 := by
  unfold pyRound1
  rw [show nearestDouble ((14:ℚ)/3) = 5254199565265579 / 2 ^ 50 by
    rw [show ((2:ℚ) ^ (50:ℕ) : ℚ) = ((2:ℚ) ^ ((52:ℤ) - 2)) by norm_num]
    rw [nearestDouble_eq_of_bounds ((14:ℚ)/3) 2 (by norm_num) (by norm_num) (by norm_num)
      (by norm_num)]
    norm_num [roundHalfEven_ite]]
  norm_num [roundHalfEven_ite]

theorem pyRound1_5 : pyRound1 ((5:ℚ)) = 5 := by
  unfold pyRound1
  rw [show nearestDouble ((5:ℚ)) = 5 by
    rw [show nearestDouble ((5:ℚ))
        = (roundHalfEven ((5:ℚ) * 2 ^ ((52:ℤ) - 2)) : ℚ) / 2 ^ ((52:ℤ) - 2) from
      nearestDouble_eq_of_bounds 5 2 (by norm_num) (by norm_num) (by norm_num) (by norm_num)]
    norm_num [roundHalfEven_ite]]
  norm_num [roundHalfEven_ite]

theorem pyRound1_19_4 : pyRound1 ((19:ℚ)/4) = 24/5 := by
  unfold pyRound1
  rw [show nearestDouble ((19:ℚ)/4) = 19/4 by
    rw [show nearestDouble ((19:ℚ)/4)
        = (roundHalfEven ((19:ℚ)/4 * 2 ^ ((52:ℤ) - 2)) : ℚ) / 2 ^ ((52:ℤ) - 2) from
      nearestDouble_eq_of_bounds (19/4) 2 (by norm_num) (by norm_num) (by norm_num) (by norm_num)]
    norm_num [roundHalfEven_ite]]
  norm_num [roundHalfEven_ite]

theorem upsert_scores_pred (P : String × String × Int → Prop) (pm : PMeeting)
    (hP : P (statEntry pm)) :
    ∀ acc : List (String × MemberStats), (∀ e ∈ acc, ∀ r ∈ e.2.meetings, P r) →
      ∀ e ∈ upsert pm acc, ∀ r ∈ e.2.meetings, P r
  | [], _ => by
    intro e he r hr
    simp only [upsert, List.mem_singleton] at he
    subst he
    simp only [addMeeting, emptyStats, List.nil_append, List.mem_singleton] at hr
    rw [hr]
    exact hP
  | (k, s) :: rest, hacc => by
    intro e he r hr
    by_cases h : k = pm.team_member
    · simp only [upsert, h, if_true, List.mem_cons] at he
      rcases he with he | he
      · subst he
        simp only [addMeeting] at hr
        rcases List.mem_append.mp hr with h1 | h1
        · exact hacc (k, s) (by simp) r h1
        · rw [List.mem_singleton.mp h1]
          exact hP
      · exact hacc _ (by simp [he]) r hr
    · simp only [upsert, h, if_false, List.mem_cons] at he
      rcases he with he | he
      · subst he
        exact hacc _ (by simp) r hr
      · exact upsert_scores_pred P pm hP rest (fun e' he' => hacc _ (by simp [he'])) e he r hr

theorem foldl_upsert_scores_pred (P : String × String × Int → Prop) :
    ∀ (l : List PMeeting) (acc : List (String × MemberStats)),
      (∀ pm ∈ l, P (statEntry pm)) →
      (∀ e ∈ acc, ∀ r ∈ e.2.meetings, P r) →
      ∀ e ∈ l.foldl (fun a pm => upsert pm a) acc, ∀ r ∈ e.2.meetings, P r
  | [], _, _, hacc => hacc
  | pm :: t, acc, hl, hacc =>
    foldl_upsert_scores_pred P t (upsert pm acc) (fun x hx => hl x (by simp [hx]))
      (upsert_scores_pred P pm (hl pm (by simp)) acc hacc)

theorem buildStats_scores_pred (P : String × String × Int → Prop) (pms : List PMeeting)
    (h : ∀ pm ∈ pms, P (statEntry pm)) :
    ∀ e ∈ buildStats pms, ∀ r ∈ e.2.meetings, P r :=
  foldl_upsert_scores_pred P pms [] h (by simp)

theorem buildStats_count_le (pms : List PMeeting) (e : String × MemberStats)
    (he : e ∈ buildStats pms) : e.2.count ≤ pms.length := by
  have h1 : e.2.count ∈ (buildStats pms).map (fun e => e.2.count) :=
    List.mem_map_of_mem _ he
  calc e.2.count ≤ ((buildStats pms).map (fun e => e.2.count)).sum :=
    List.single_le_sum (fun x _ => Nat.zero_le x) _ h1
  _ = pms.length := buildStats_counts pms

theorem scores_sum_le (l : List (String × String × Int)) (h : ∀ r ∈ l, r.2.2 ≤ 5) :
    (l.map (fun r => r.2.2)).sum ≤ 5 * (l.length : ℤ) := by
  induction l with
  | nil => simp
  | cons a t ih =>
    simp only [List.map_cons, List.sum_cons, List.length_cons]
    have h1 := h a (by simp)
    have h2 := ih (fun r hr => h r (by simp [hr]))
    push_cast
    linarith

theorem scores_sum_nonneg (l : List (String × String × Int)) (h : ∀ r ∈ l, 0 ≤ r.2.2) :
    0 ≤ (l.map (fun r => r.2.2)).sum := by
  induction l with
  | nil => simp
  | cons a t ih =>
    simp only [List.map_cons, List.sum_cons]
    have h1 := h a (by simp)
    have h2 := ih (fun r hr => h r (by simp [hr]))
    linarith

theorem pm_scores_sum_le (l : List PMeeting) (h : ∀ m ∈ l, m.score ≤ 5) :
    (l.map (fun m => m.score)).sum ≤ 5 * (l.length : ℤ) := by
  induction l with
  | nil => simp
  | cons a t ih =>
    simp only [List.map_cons, List.sum_cons, List.length_cons]
    have h1 := h a (by simp)
    have h2 := ih (fun m hm => h m (by simp [hm]))
    push_cast
    linarith

theorem pm_scores_sum_nonneg (l : List PMeeting) (h : ∀ m ∈ l, 0 ≤ m.score) :
    0 ≤ (l.map (fun m => m.score)).sum := by
  induction l with
  | nil => simp
  | cons a t ih =>
    simp only [List.map_cons, List.sum_cons]
    have h1 := h a (by simp)
    have h2 := ih (fun m hm => h m (by simp [hm]))
    linarith

theorem c5_member_averages (d : InputData) :
    (_process_client_meetings d).team_performance.Forall (fun e =>
      e.2.average = some (pyRound1 (((e.2.meetings.map (fun t => (t.2.2 : ℚ))).sum) /
        (e.2.meetings.length : ℚ)))) := by
  rw [List.forall_iff_forall_mem]
  intro e he
  have : ∃ e' ∈ buildStats ((if d.now_pipeline.isEmpty then d.sample_meetings
      else d.now_pipeline).map processMeeting), setAverage e' = e := by
    simpa [_process_client_meetings] using List.mem_map.mp he
  obtain ⟨e', he', rfl⟩ := this
  obtain ⟨h1, h2, h3⟩ := buildStats_inv _ e' he'
  rw [setAverage_meetings, setAverage_avg e' h3, h2, scoresSum_cast, h1]

theorem c5_team_average (d : InputData) :
    (_process_client_meetings d).average_score =
      if (_process_client_meetings d).meetings.length = 0 then 0
      else pyRound1 ((((_process_client_meetings d).meetings.map
          (fun m => (m.score : ℚ))).sum) /
        ((_process_client_meetings d).meetings.length : ℚ)) := rfl

/-- The four-meeting scenario of the spec: member A scores [5, 5, 4],
member B scores [5]. -/
def scenData : InputData :=
  { now_pipeline :=
      [{ owner := some "Member A", client := some "Acme", score := some 5 },
       { owner := some "Member A", client := some "Beta", score := some 5 },
       { owner := some "Member A", client := some "Gamma", score := some 4 },
       { owner := some "Member B", client := some "Delta", score := some 5 }] }

/-- Twenty meetings for one member with scores summing to 93 (13 fives
and 7 fours): the exact mean 93/20 = 4.65 is a one-decimal rounding tie
that is not representable in binary64. -/
def d93 : InputData :=
  { now_pipeline :=
      List.replicate 13 ({ owner := some "Member A", client := some "Acme", score := some 5 } : RawMeeting)
      ++ List.replicate 7 ({ owner := some "Member A", client := some "Acme", score := some 4 } : RawMeeting) }

/-- C5 counterexample: for the 20-meeting dataset d93 the member's exact
mean is 93/20 = 4.65, yet the aggregated member average and the team
average are 4.7, while one-decimal half-to-even rounding of the exact
mean gives 4.6 = 23/5 - the source rounds the binary64 approximation of
the mean, which lies above the tie, so "average equals the arithmetic
mean rounded to one decimal" fails at this input. -/
theorem c5_counterexample_tie :
    ((_process_client_meetings d93).team_performance.map (fun e => (e.1, e.2.average))
        = [("Member A", some ((47:ℚ)/10))])
    ∧ (_process_client_meetings d93).average_score = 47/10
    ∧ ((((_process_client_meetings d93).meetings.map (fun m => (m.score : ℚ))).sum) /
        ((_process_client_meetings d93).meetings.length : ℚ)) = 93/20
    ∧ round1 ((93:ℚ)/20) = 23/5
    ∧ ((47:ℚ)/10) ≠ 23/5 := by
  have hs : ((_process_client_meetings d93).meetings.map (fun m => m.score)).sum = 93 := by
    decide
  have hlen : (_process_client_meetings d93).meetings.length = 20 := by decide
  refine ⟨?_, ?_, ?_, round1_93_20, by norm_num⟩
  · have hb : buildStats ((if d93.now_pipeline.isEmpty then d93.sample_meetings
        else d93.now_pipeline).map processMeeting)
        = [("Member A", ⟨List.replicate 13 ("Acme", "", (5:ℤ))
            ++ List.replicate 7 ("Acme", "", (4:ℤ)), 93, 20, none⟩)] := by decide
    show ((buildStats ((if d93.now_pipeline.isEmpty then d93.sample_meetings
        else d93.now_pipeline).map processMeeting)).map setAverage).map
        (fun e => (e.1, e.2.average)) = _
    rw [hb]
    simp only [List.map_cons, List.map_nil, setAverage]
    norm_num [pyRound1_93_20]
  · rw [c5_team_average d93, pmScoresSum_cast, hs, hlen]
    norm_num [pyRound1_93_20]
  · rw [pmScoresSum_cast, hs, hlen]
    norm_num

/-- C5 (amended): for datasets whose meeting scores lie in 0..5, every
member's aggregated average is the member's arithmetic mean converted to
binary64 and rounded to one decimal half-to-even (pyRound1), and the
team average likewise (0 for an empty list); for such datasets of at
most 2^45 meetings this equals the exact mean rounded to one decimal
(round1) whenever ten times the mean is not exactly a half-integer, the
divergence being confined to such ties (where the result follows the
binary64 approximation, e.g. 4.65 rounds to 4.7). In the four-meeting
scenario the member averages are 4.7 and 5.0 and the team average is 4.8
(the exact team mean 4.75 is binary-representable, so its half-to-even
rounding is unchanged). -/
theorem c5_averages :
    (∀ d : InputData,
      (∀ m ∈ (_process_client_meetings d).meetings, 0 ≤ m.score ∧ m.score ≤ 5) →
      ((_process_client_meetings d).team_performance.Forall (fun e =>
        e.2.average = some (pyRound1 (((e.2.meetings.map (fun t => (t.2.2 : ℚ))).sum) /
          (e.2.meetings.length : ℚ)))))
      ∧ ((_process_client_meetings d).average_score =
          if (_process_client_meetings d).meetings.length = 0 then 0
          else pyRound1 ((((_process_client_meetings d).meetings.map
              (fun m => (m.score : ℚ))).sum) /
            ((_process_client_meetings d).meetings.length : ℚ))))
    ∧ (∀ d : InputData,
      (∀ m ∈ (_process_client_meetings d).meetings, 0 ≤ m.score ∧ m.score ≤ 5) →
      (_process_client_meetings d).meetings.length ≤ 2 ^ 45 →
      ((_process_client_meetings d).team_performance.Forall (fun e =>
        e.2.average = some (round1 (((e.2.meetings.map (fun t => (t.2.2 : ℚ))).sum) /
          (e.2.meetings.length : ℚ)))
        ∨ tieAt ((e.2.meetings.map (fun t => t.2.2)).sum) e.2.meetings.length))
      ∧ ((_process_client_meetings d).average_score =
            round1 ((((_process_client_meetings d).meetings.map
              (fun m => (m.score : ℚ))).sum) /
              ((_process_client_meetings d).meetings.length : ℚ))
          ∨ tieAt (((_process_client_meetings d).meetings.map (fun m => m.score)).sum)
              (_process_client_meetings d).meetings.length))
    ∧ (_process_client_meetings scenData).average_score = 24/5
    ∧ (_process_client_meetings scenData).team_performance.map (fun e => (e.1, e.2.average))
        = [("Member A", some (47/10)), ("Member B", some (5 : ℚ))]
    ∧ (_process_client_meetings scenData).total_meetings = 4 := by
  refine ⟨fun d _ => ⟨c5_member_averages d, c5_team_average d⟩, ?_, ?_, ?_, by decide⟩
  · intro d hrange hlen
    constructor
    · rw [List.forall_iff_forall_mem]
      intro e he
      have hex : ∃ e' ∈ buildStats ((if d.now_pipeline.isEmpty then d.sample_meetings
          else d.now_pipeline).map processMeeting), setAverage e' = e := by
        simpa [_process_client_meetings] using List.mem_map.mp he
      obtain ⟨e', he', rfl⟩ := hex
      obtain ⟨h1, h2, h3⟩ := buildStats_inv _ e' he'
      have hsc : ∀ r ∈ e'.2.meetings, 0 ≤ r.2.2 ∧ r.2.2 ≤ 5 := by
        refine buildStats_scores_pred (fun r => 0 ≤ r.2.2 ∧ r.2.2 ≤ 5) _ ?_ e' he'
        intro pm hpm
        exact hrange pm hpm
      by_cases htie : tieAt ((e'.2.meetings.map (fun r => r.2.2)).sum) e'.2.meetings.length
      · right
        rw [setAverage_meetings]
        exact htie
      · left
        rw [setAverage_meetings, setAverage_avg e' h3, h2, h1, ← scoresSum_cast]
        have hlen0 : 0 < e'.2.meetings.length := h1 ▸ h3
        have hcount : e'.2.meetings.length
            ≤ ((if d.now_pipeline.isEmpty then d.sample_meetings
              else d.now_pipeline).map processMeeting).length := by
          rw [← h1]
          exact buildStats_count_le _ e' he'
        have hcB : (e'.2.meetings.length : ℤ) ≤ 2 ^ 45 := by
          exact_mod_cast le_trans hcount hlen
        exact congrArg some (pyRound1_eq_round1 _ _ hlen0 hcB
          (scores_sum_nonneg _ (fun r hr => (hsc r hr).1))
          (scores_sum_le _ (fun r hr => (hsc r hr).2)) htie)
    · by_cases hzero : (_process_client_meetings d).meetings.length = 0
      · left
        rw [c5_team_average d, if_pos hzero, hzero]
        norm_num [round1, roundHalfEven_ite]
      · by_cases htie : tieAt (((_process_client_meetings d).meetings.map
            (fun m => m.score)).sum) (_process_client_meetings d).meetings.length
        · right
          exact htie
        · left
          rw [c5_team_average d, if_neg hzero, pmScoresSum_cast]
          exact pyRound1_eq_round1 _ _ (Nat.pos_of_ne_zero hzero) (by exact_mod_cast hlen)
            (pm_scores_sum_nonneg _ (fun m hm => (hrange m hm).1))
            (pm_scores_sum_le _ (fun m hm => (hrange m hm).2)) htie
  · rw [c5_team_average scenData]
    have hm : (_process_client_meetings scenData).meetings.map (fun m => m.score)
        = [5, 5, 4, 5] := by decide
    have hlen : (_process_client_meetings scenData).meetings.length = 4 := by decide
    rw [pmScoresSum_cast, hm, hlen]
    norm_num [pyRound1_19_4]
  · have hb : buildStats ((if scenData.now_pipeline.isEmpty then scenData.sample_meetings
        else scenData.now_pipeline).map processMeeting)
        = [("Member A", ⟨[("Acme", "", 5), ("Beta", "", 5), ("Gamma", "", 4)], 14, 3, none⟩),
           ("Member B", ⟨[("Delta", "", 5)], 5, 1, none⟩)] := by decide
    show ((buildStats ((if scenData.now_pipeline.isEmpty then scenData.sample_meetings
        else scenData.now_pipeline).map processMeeting)).map setAverage).map
        (fun e => (e.1, e.2.average)) = _
    rw [hb]
    simp only [List.map_cons, List.map_nil, setAverage]
    norm_num [pyRound1_14_3, pyRound1_5]

/-- Witness for the C5 theorem at the four-meeting scenario: the score
range and size hypotheses hold there and the exact-rounding disjunction
follows. -/
theorem c5_averages_witness :
    ((∀ m ∈ (_process_client_meetings scenData).meetings, 0 ≤ m.score ∧ m.score ≤ 5)
      ∧ (_process_client_meetings scenData).meetings.length ≤ 2 ^ 45)
    ∧ (((_process_client_meetings scenData).team_performance.Forall (fun e =>
          e.2.average = some (round1 (((e.2.meetings.map (fun t => (t.2.2 : ℚ))).sum) /
            (e.2.meetings.length : ℚ)))
          ∨ tieAt ((e.2.meetings.map (fun t => t.2.2)).sum) e.2.meetings.length))
       ∧ ((_process_client_meetings scenData).average_score =
             round1 ((((_process_client_meetings scenData).meetings.map
               (fun m => (m.score : ℚ))).sum) /
               ((_process_client_meetings scenData).meetings.length : ℚ))
           ∨ tieAt (((_process_client_meetings scenData).meetings.map
               (fun m => m.score)).sum)
               (_process_client_meetings scenData).meetings.length)) :=
  ⟨⟨by decide, by decide⟩, c5_averages.2.1 scenData (by decide) (by decide)⟩

/-! ### C6: batching, sorting and order preservation -/

theorem chunk3_join {α : Type} : ∀ l : List α, (chunk3 l).flatten = l
  | [] => rfl
  | [_] => rfl
  | [_, _] => rfl
  | a :: b :: c :: t => by
    simp only [chunk3, List.flatten_cons, chunk3_join t]
    rfl

theorem chunk3_eq_nil_iff {α : Type} : ∀ l : List α, chunk3 l = [] ↔ l = []
  | [] => by simp [chunk3]
  | [_] => by simp [chunk3]
  | [_, _] => by simp [chunk3]
  | _ :: _ :: _ :: _ => by simp [chunk3]

theorem chunk3_dropLast_sizes {α : Type} :
    ∀ l : List α, ∀ b ∈ (chunk3 l).dropLast, b.length = 3
  | [], _ => by simp [chunk3]
  | [_], _ => by simp [chunk3]
  | [_, _], _ => by simp [chunk3]
  | a :: x :: c :: t, b => by
    intro hb
    by_cases ht : chunk3 t = []
    · rw [chunk3, ht] at hb
      simp at hb
    · rw [chunk3, List.dropLast_cons_of_ne_nil ht, List.mem_cons] at hb
      rcases hb with hb | hb
      · subst hb; rfl
      · exact chunk3_dropLast_sizes t b hb

theorem chunk3_sizes {α : Type} :
    ∀ l : List α, ∀ b ∈ chunk3 l, b ≠ [] ∧ b.length ≤ 3
  | [], _ => by simp [chunk3]
  | [_], _ => by intro hb; simp [chunk3] at hb; simp [hb]
  | [_, _], _ => by intro hb; simp [chunk3] at hb; simp [hb]
  | a :: x :: c :: t, b => by
    intro hb
    rw [chunk3, List.mem_cons] at hb
    rcases hb with hb | hb
    · subst hb; exact ⟨by simp, by simp⟩
    · exact chunk3_sizes t b hb

theorem insDesc_perm (m : PMeeting) : ∀ l : List PMeeting, (insDesc m l).Perm (m :: l)
  | [] => List.Perm.refl _
  | x :: xs => by
    rw [insDesc]
    by_cases h : x.score ≤ m.score
    · simp [h]
    · simp only [h, if_false]
      exact ((insDesc_perm m xs).cons x).trans (List.Perm.swap m x xs)

theorem sortDesc_perm : ∀ l : List PMeeting, (sortDesc l).Perm l
  | [] => List.Perm.refl _
  | a :: t => by
    show (insDesc a (sortDesc t)).Perm (a :: t)
    exact (insDesc_perm a (sortDesc t)).trans ((sortDesc_perm t).cons a)

theorem insDesc_pairwise (m : PMeeting) :
    ∀ l : List PMeeting, l.Pairwise (fun a b => b.score ≤ a.score) →
      (insDesc m l).Pairwise (fun a b => b.score ≤ a.score)
  | [], _ => by simp [insDesc]
  | x :: xs, h => by
    rw [List.pairwise_cons] at h
    obtain ⟨hx, hxs⟩ := h
    rw [insDesc]
    by_cases hc : x.score ≤ m.score
    · simp only [hc, if_true]
      rw [List.pairwise_cons]
      refine ⟨?_, List.pairwise_cons.mpr ⟨hx, hxs⟩⟩
      intro y hy
      rcases List.mem_cons.mp hy with rfl | hy
      · exact hc
      · exact le_trans (hx y hy) hc
    · simp only [hc, if_false]
      rw [List.pairwise_cons]
      refine ⟨?_, insDesc_pairwise m xs hxs⟩
      intro y hy
      have := (insDesc_perm m xs).mem_iff.mp hy
      rcases List.mem_cons.mp this with rfl | hy'
      · exact le_of_lt (lt_of_not_le hc)
      · exact hx y hy'

theorem sortDesc_pairwise : ∀ l : List PMeeting,
    (sortDesc l).Pairwise (fun a b => b.score ≤ a.score)
  | [] => by simp [sortDesc]
  | a :: t => by
    show (insDesc a (sortDesc t)).Pairwise _
    exact insDesc_pairwise a (sortDesc t) (sortDesc_pairwise t)

theorem genBatchList_eq :
    ∀ (bs : List (List PMeeting)) (o : Nat → CallOutcome),
      genBatchList bs o = bs.mapIdx (fun i b => _generate_conversation_batch b (o i))
  | [], _ => by simp [genBatchList]
  | b :: bs, o => by
    rw [genBatchList, genBatchList_eq bs, List.mapIdx_cons]

theorem oldCollect_ok :
    ∀ (bs : List (List PMeeting)) (lastB : List PMeeting) (f : Nat → String),
      oldCollect bs lastB (fun i => .ok (f i)) = (List.range bs.length).map f
  | [], _, _ => by simp [oldCollect]
  | b :: bs, lastB, f => by
    rw [oldCollect, List.length_cons, List.range_succ_eq_map, List.map_cons, List.map_map]
    exact congrArg _ (oldCollect_ok bs lastB (fun i => f (i + 1)))

/-- C6: the conversation-cards section of llm.py splits the stable
score-descending sort of the meeting list into consecutive batches of
three (the last possibly smaller) and emits one batch result per batch
in original batch order; the batches partition the sorted list, which
is a permutation of the input. The conjunct about llm_old.py shows that
the concurrent collector also assembles results in submission order:
with every future succeeding, the section is the join of the per-batch
texts indexed in batch order, independent of any completion order. -/
theorem c6_batching (meetings : List PMeeting) (o : Nat → CallOutcome) :
    (_generate_all_conversations_concurrent meetings o =
        if meetings.isEmpty then "No qualified meetings found."
        else pyJoin "\n" ((chunk3 (sortDesc meetings)).mapIdx
          (fun i b => _generate_conversation_batch b (o i))))
    ∧ (chunk3 (sortDesc meetings)).flatten = sortDesc meetings
    ∧ (sortDesc meetings).Perm meetings
    ∧ (sortDesc meetings).Pairwise (fun a b => b.score ≤ a.score)
    ∧ (∀ b ∈ (chunk3 (sortDesc meetings)).dropLast, b.length = 3)
    ∧ (∀ b ∈ chunk3 (sortDesc meetings), b ≠ [] ∧ b.length ≤ 3)
    ∧ (∀ f : Nat → String,
        old_generate_all_conversations_concurrent meetings (fun i => .ok (f i)) =
          if meetings.isEmpty then "No qualified meetings found."
          else pyJoin "\n"
            ((List.range (chunk3 (sortDesc meetings)).length).map f)) := by
  refine ⟨?_, chunk3_join _, sortDesc_perm _, sortDesc_pairwise _,
    chunk3_dropLast_sizes _, chunk3_sizes _, ?_⟩
  · rw [_generate_all_conversations_concurrent, genBatchList_eq]
  · intro f
    rw [old_generate_all_conversations_concurrent]
    by_cases h : meetings.isEmpty
    · simp [h]
    · simp only [h, if_false]
      rw [oldCollect_ok]

/-! ### C8: template rendering never raises and always substitutes -/

/-- C8: template rendering is total by construction, and every failure
mode — missing layout file, unreadable template, missing external tool,
tool timeout, nonzero exit status — yields the built-in fallback layout,
which carries the same substitutions: the converted content, the
generation date, the date range and the meeting-count display. A zero
exit status returns the tool's output instead. -/
theorem c8_render_fallback (toHtml : String → String) (mode markdown_content : String)
    (total_meetings : Option Int) (current_date date_range : String)
    (tmpl : Option String) (sub : String → SubprocOutcome) (t : String)
    (code : Int) (stdout stderr : String) :
    (render_email toHtml mode markdown_content total_meetings current_date date_range
        false tmpl sub =
      _render_simple_html (toHtml markdown_content) mode total_meetings
        current_date date_range)
    ∧ (render_mjml_to_html none (toHtml markdown_content) mode total_meetings
        current_date date_range sub =
      _render_simple_html (toHtml markdown_content) mode total_meetings
        current_date date_range)
    ∧ (render_mjml_to_html (some t) (toHtml markdown_content) mode total_meetings
          current_date date_range (fun _ => .notFound) =
        _render_simple_html (toHtml markdown_content) mode total_meetings
          current_date date_range)
    ∧ (render_mjml_to_html (some t) (toHtml markdown_content) mode total_meetings
          current_date date_range (fun _ => .timeout) =
        _render_simple_html (toHtml markdown_content) mode total_meetings
          current_date date_range)
    ∧ (render_mjml_to_html (some t) (toHtml markdown_content) mode total_meetings
          current_date date_range (fun _ => .exit code stdout stderr) =
        (if code = 0 then stdout
         else _render_simple_html (toHtml markdown_content) mode total_meetings
           current_date date_range))
    ∧ SubstrOf (toHtml markdown_content)
        (_render_simple_html (toHtml markdown_content) mode total_meetings
          current_date date_range)
    ∧ SubstrOf current_date
        (_render_simple_html (toHtml markdown_content) mode total_meetings
          current_date date_range)
    ∧ SubstrOf date_range
        (_render_simple_html (toHtml markdown_content) mode total_meetings
          current_date date_range)
    ∧ SubstrOf (pyStrOrNA total_meetings)
        (_render_simple_html (toHtml markdown_content) mode total_meetings
          current_date date_range) := by
  refine ⟨rfl, rfl, rfl, rfl, rfl, ?_, ?_, ?_, ?_⟩
  · rw [_render_simple_html]
    exact substrOf_appendL _ (substrOf_appendL _ (substrOf_appendL _ (substrOf_appendL _
      (substrOf_appendL _ (substrOf_appendR _ (substrOf_self _))))))
  · rw [_render_simple_html]
    exact substrOf_appendL _ (substrOf_appendL _ (substrOf_appendL _ (substrOf_appendL _
      (substrOf_appendL _ (substrOf_appendL _ (substrOf_appendL _
        (substrOf_appendR _ (substrOf_self _))))))))
  · rw [_render_simple_html]
    exact substrOf_appendL _ (substrOf_appendL _ (substrOf_appendL _
      (substrOf_appendR _ (substrOf_self _))))
  · rw [_render_simple_html]
    exact substrOf_appendL _ (substrOf_appendR _ (substrOf_self _))

/-! ### C2: batch fallback targeting in the two collectors -/

def c2meetings : List PMeeting :=
  [mkPM "AlphaCorp" "Alice" "2025-01-01" 5,
   mkPM "BetaCorp" "Bob" "2025-01-02" 4,
   mkPM "GammaCorp" "Cara" "2025-01-03" 3,
   mkPM "DeltaCorp" "Dan" "2025-01-04" 2]

/-- One outcome assignment: the first batch's future times out, the
second returns live text. -/
def c2results : Nat → BatchResult :=
  fun i => if i = 0 then .timeout else .ok "LIVE CARDS"

set_option maxRecDepth 8000 in
/-- C2, at the failing input: four meetings split into the batches
[Alpha, Beta, Gamma] and [Delta]; batch 1's call exceeds its timeout
and batch 2 succeeds. llm_old.py then emits ONE fallback card built
from the LAST batch's meeting (DeltaCorp) in place of batch 1 — its
`except` block iterates the stale loop variable `batch` — so none of
batch 1's client labels appear in the section, contradicting both the
claim and the code's own comment. The last conjunct shows llm.py's
sequential version does produce one card per meeting of the raising
batch itself. -/
theorem c2_old_timeout_wrong_batch :
    (old_generate_all_conversations_concurrent c2meetings c2results =
        old_fallback_conversation_card (mkPM "DeltaCorp" "Dan" "2025-01-04" 2) ++
          "\n" ++ "LIVE CARDS")
    ∧ hasSub "AlphaCorp".data
        (old_generate_all_conversations_concurrent c2meetings c2results).data = false
    ∧ hasSub "BetaCorp".data
        (old_generate_all_conversations_concurrent c2meetings c2results).data = false
    ∧ hasSub "GammaCorp".data
        (old_generate_all_conversations_concurrent c2meetings c2results).data = false
    ∧ hasSub "DeltaCorp".data
        (old_generate_all_conversations_concurrent c2meetings c2results).data = true
    ∧ (_generate_all_conversations_concurrent c2meetings (fun i => if i = 0 then
          .raises else .returns (some "LIVE CARDS")) =
        pyJoin "\n---\n"
          ([mkPM "AlphaCorp" "Alice" "2025-01-01" 5,
            mkPM "BetaCorp" "Bob" "2025-01-02" 4,
            mkPM "GammaCorp" "Cara" "2025-01-03" 3].map _fallback_conversation_card) ++
          "\n" ++ "LIVE CARDS") := by
  refine ⟨by rfl, ?_, ?_, ?_, ?_, by rfl⟩ <;> decide

/-! ### C9: occurrence counting and scan lemmas -/

theorem matchLit_decomp : ∀ p l r : List Char, matchLit p l = some r → l = p ++ r
  | [], l, r => by intro h; simp [matchLit] at h; simp [h]
  | p :: ps, [], r => by intro h; simp [matchLit] at h
  | p :: ps, c :: cs, r => by
    intro h
    rw [matchLit] at h
    by_cases hc : c = p
    · rw [if_pos hc] at h
      rw [List.cons_append, ← matchLit_decomp ps cs r h, hc]
    · rw [if_neg hc] at h
      exact absurd h (by simp)

theorem dropWhile_length_le (p : Char → Bool) : ∀ l : List Char,
    (l.dropWhile p).length ≤ l.length
  | [] => le_refl _
  | c :: cs => by
    rw [List.dropWhile_cons]
    by_cases h : p c
    · simp only [h, if_true]
      exact le_trans (dropWhile_length_le p cs) (by simp)
    · simp [h]

theorem tryPat1_some (l rest : List Char) (h : tryPat1 l = some rest) :
    rest.length < l.length ∧ "**##".data <+: l := by
  rw [tryPat1] at h
  rcases h1 : matchLit "**##".data l with _ | r1h
  · rw [h1] at h; exact absurd h (by simp)
  · rw [h1] at h
    have hd1 := matchLit_decomp _ _ _ h1
    have hd2 := matchLit_decomp _ _ _ h
    have hw := dropWhile_length_le isPySpace r1h
    have hl1 : l.length = 4 + r1h.length := by rw [hd1]; simp; omega
    have hl2 : (r1h.dropWhile isPySpace).length = 24 + rest.length := by
      rw [hd2]; simp; omega
    exact ⟨by omega, ⟨r1h, hd1.symm⟩⟩

theorem tryPat2_some (l rest : List Char) (h : tryPat2 l = some rest) :
    rest.length < l.length ∧ "##".data <+: l := by
  rw [tryPat2] at h
  rcases h1 : matchLit "##".data l with _ | r1h
  · rw [h1] at h; exact absurd h (by simp)
  · rw [h1] at h
    have hd1 := matchLit_decomp _ _ _ h1
    have hd2 := matchLit_decomp _ _ _ h
    have hw := dropWhile_length_le isPySpace r1h
    have hl1 : l.length = 2 + r1h.length := by rw [hd1]; simp; omega
    have hl2 : (r1h.dropWhile isPySpace).length = 26 + rest.length := by
      rw [hd2]; simp; omega
    exact ⟨by omega, ⟨r1h, hd1.symm⟩⟩

theorem captureTo_some : ∀ l cap rest : List Char, captureTo l = some (cap, rest) →
    rest.length < l.length
  | [], cap, rest => by intro h; simp [captureTo] at h
  | c :: cs, cap, rest => by
    intro h
    rw [captureTo] at h
    by_cases hp : "**".data.isPrefixOf (c :: cs)
    · simp only [hp, if_true] at h
      obtain ⟨-, hr⟩ := Prod.mk.injEq .. ▸ Option.some.injEq .. ▸ h
      have : rest = cs.drop 1 := by
        cases h
        rfl
      rw [this]
      have := List.length_drop 1 cs
      simp only [List.length_cons]
      omega
    · simp only [hp, if_false] at h
      by_cases hn : c = '\n'
      · rw [if_pos hn] at h; exact absurd h (by simp)
      · rw [if_neg hn] at h
        rcases hc : captureTo cs with _ | ⟨cap', rest'⟩
        · rw [hc] at h; exact absurd h (by simp)
        · rw [hc] at h
          have hlt := captureTo_some cs cap' rest' hc
          cases h
          simp only [List.length_cons]
          omega

theorem tryH3_some (l cap rest : List Char) (h : tryH3 l = some (cap, rest)) :
    rest.length < l.length ∧ "###".data <+: l := by
  rw [tryH3] at h
  split at h
  · exact absurd h (by simp)
  · rename_i r1h h1
    split at h
    · exact absurd h (by simp)
    · rename_i r2h h2
      have hd1 := matchLit_decomp _ _ _ h1
      have hd2 := matchLit_decomp _ _ _ h2
      have hw := dropWhile_length_le isPySpace r1h
      have hcap := captureTo_some r2h cap rest h
      have hl1 : l.length = 3 + r1h.length := by rw [hd1]; simp; omega
      have hl2 : (r1h.dropWhile isPySpace).length = 2 + r2h.length := by
        rw [hd2]; simp; omega
      exact ⟨by omega, ⟨r1h, hd1.symm⟩⟩

theorem r1go_nil : ∀ f, r1go f [] = []
  | 0 => rfl
  | _ + 1 => rfl

theorem r1go_congr : ∀ f g l, l.length ≤ f → l.length ≤ g → r1go f l = r1go g l
  | 0, g, l, hf, _ => by
    have : l = [] := List.length_eq_zero.mp (Nat.le_zero.mp hf)
    subst this
    rw [r1go_nil, r1go_nil]
  | f + 1, g, [], _, _ => by rw [r1go_nil, r1go_nil]
  | f + 1, g, c :: cs, hf, hg => by
    match g, hg with
    | g + 1, hg =>
      rw [r1go, r1go]
      rcases h : tryPat1 (c :: cs) with _ | rest
      · simp only [h, List.length_cons] at hf hg ⊢
        rw [r1go_congr f g cs (by omega) (by omega)]
      · have := (tryPat1_some _ _ h).1
        simp only [h, List.length_cons] at hf hg this ⊢
        exact r1go_congr f g rest (by omega) (by omega)

theorem r1_cons_none (c : Char) (cs : List Char) (h : tryPat1 (c :: cs) = none) :
    r1 (c :: cs) = c :: r1 cs := by
  rw [r1, List.length_cons, r1go, h]
  rfl

theorem r1_fire (l rest : List Char) (h : tryPat1 l = some rest) : r1 l = r1 rest := by
  match l with
  | [] => rw [show tryPat1 [] = none from rfl] at h; exact absurd h (by simp)
  | c :: cs =>
    rw [r1, List.length_cons, r1go, h]
    have := (tryPat1_some _ _ h).1
    simp only [List.length_cons] at this
    exact r1go_congr _ _ _ (by omega) (le_refl _)

theorem r2go_nil : ∀ f, r2go f [] = []
  | 0 => rfl
  | _ + 1 => rfl

theorem r2go_congr : ∀ f g l, l.length ≤ f → l.length ≤ g → r2go f l = r2go g l
  | 0, g, l, hf, _ => by
    have : l = [] := List.length_eq_zero.mp (Nat.le_zero.mp hf)
    subst this
    rw [r2go_nil, r2go_nil]
  | f + 1, g, [], _, _ => by rw [r2go_nil, r2go_nil]
  | f + 1, g, c :: cs, hf, hg => by
    match g, hg with
    | g + 1, hg =>
      rw [r2go, r2go]
      rcases h : tryPat2 (c :: cs) with _ | rest
      · simp only [h, List.length_cons] at hf hg ⊢
        rw [r2go_congr f g cs (by omega) (by omega)]
      · have := (tryPat2_some _ _ h).1
        simp only [h, List.length_cons] at hf hg this ⊢
        exact r2go_congr f g rest (by omega) (by omega)

theorem r2_cons_none (c : Char) (cs : List Char) (h : tryPat2 (c :: cs) = none) :
    r2 (c :: cs) = c :: r2 cs := by
  rw [r2, List.length_cons, r2go, h]
  rfl

theorem r2_fire (l rest : List Char) (h : tryPat2 l = some rest) : r2 l = r2 rest := by
  match l with
  | [] => rw [show tryPat2 [] = none from rfl] at h; exact absurd h (by simp)
  | c :: cs =>
    rw [r2, List.length_cons, r2go, h]
    have := (tryPat2_some _ _ h).1
    simp only [List.length_cons] at this
    exact r2go_congr _ _ _ (by omega) (le_refl _)

theorem step5go_nil : ∀ f, step5go f [] = []
  | 0 => rfl
  | _ + 1 => rfl

theorem step5_cons_none (c : Char) (cs : List Char) (h : tryH3 (c :: cs) = none) :
    step5 (c :: cs) = c :: step5 cs := by
  rw [step5, List.length_cons, step5go, h]
  rfl

theorem hasSub_cons_false (p : List Char) (c : Char) (cs : List Char)
    (h : hasSub p (c :: cs) = false) :
    p.isPrefixOf (c :: cs) = false ∧ hasSub p cs = false := by
  rw [hasSub, Bool.or_eq_false_iff] at h
  exact h

theorem hasSub_of_isPrefixOf (p l : List Char) (h : p.isPrefixOf l = true) :
    hasSub p l = true := by
  match l with
  | [] =>
    rw [hasSub]
    have : p = [] := by
      have := List.isPrefixOf_iff_prefix.mp h
      simpa using this
    simp [this]
  | c :: cs =>
    rw [hasSub, h]
    rfl

theorem hasSub_iff_exists (p : List Char) : ∀ l, hasSub p l = true ↔ ∃ i, p <+: l.drop i
  | [] => by
    rw [hasSub]
    constructor
    · intro h
      exact ⟨0, by simp [List.isEmpty_iff.mp h]⟩
    · rintro ⟨i, h⟩
      rw [List.drop_nil] at h
      have : p = [] := by simpa using h
      simp [this]
  | c :: cs => by
    rw [hasSub, Bool.or_eq_true, List.isPrefixOf_iff_prefix, hasSub_iff_exists p cs]
    constructor
    · rintro (h | ⟨i, h⟩)
      · exact ⟨0, by simpa using h⟩
      · exact ⟨i + 1, by simpa [List.drop_succ_cons] using h⟩
    · rintro ⟨i, h⟩
      match i with
      | 0 => exact Or.inl (by simpa using h)
      | i + 1 => exact Or.inr ⟨i, by simpa [List.drop_succ_cons] using h⟩

theorem hasSub_false_char (p l : List Char) (c : Char) (hc : c ∈ p) (hl : c ∉ l) :
    hasSub p l = false := by
  by_contra hne
  have ht : hasSub p l = true := by
    cases hb : hasSub p l
    · exact absurd hb hne
    · rfl
  obtain ⟨i, hpre⟩ := (hasSub_iff_exists p l).mp ht
  exact hl (List.drop_subset i l (hpre.subset hc))

theorem hasSub_singleton_iff (c : Char) : ∀ l, hasSub [c] l = true ↔ c ∈ l
  | [] => by simp [hasSub]
  | x :: xs => by
    rw [hasSub, Bool.or_eq_true, hasSub_singleton_iff c xs]
    constructor
    · rintro (h | h)
      · have := List.isPrefixOf_iff_prefix.mp h
        have hcx : c = x := by
          obtain ⟨t, ht⟩ := this
          exact (by simpa using congrArg (fun l => l.head?) ht.symm : x = c).symm
        simp [hcx]
    
      · simp [h]
    · intro h
      rcases List.mem_cons.mp h with rfl | h
      · left
        rw [List.isPrefixOf_iff_prefix]
        exact ⟨xs, rfl⟩
      · simp [h]

theorem r1_skip (l : List Char) (h : hasSub "**##".data l = false) : r1 l = l := by
  induction l with
  | nil => rfl
  | cons c cs ih =>
    obtain ⟨h0, hrest⟩ := hasSub_cons_false _ _ _ h
    have hn : tryPat1 (c :: cs) = none := by
      rcases ht : tryPat1 (c :: cs) with _ | rest
      · rfl
      · have := (tryPat1_some _ _ ht).2
        rw [List.isPrefixOf_iff_prefix.mpr this] at h0
        exact absurd h0 (by simp)
    rw [r1_cons_none c cs hn, ih hrest]

theorem r2_skip (l : List Char) (h : hasSub "##".data l = false) : r2 l = l := by
  induction l with
  | nil => rfl
  | cons c cs ih =>
    obtain ⟨h0, hrest⟩ := hasSub_cons_false _ _ _ h
    have hn : tryPat2 (c :: cs) = none := by
      rcases ht : tryPat2 (c :: cs) with _ | rest
      · rfl
      · have := (tryPat2_some _ _ ht).2
        rw [List.isPrefixOf_iff_prefix.mpr this] at h0
        exact absurd h0 (by simp)
    rw [r2_cons_none c cs hn, ih hrest]

theorem step5_skip (l : List Char) (h : hasSub "###".data l = false) : step5 l = l := by
  induction l with
  | nil => rfl
  | cons c cs ih =>
    obtain ⟨h0, hrest⟩ := hasSub_cons_false _ _ _ h
    have hn : tryH3 (c :: cs) = none := by
      rcases ht : tryH3 (c :: cs) with _ | ⟨cap, rest⟩
      · rfl
      · have := (tryH3_some _ _ _ ht).2
        rw [List.isPrefixOf_iff_prefix.mpr this] at h0
        exact absurd h0 (by simp)
    rw [step5_cons_none c cs hn, ih hrest]

theorem tryGoal_none_of_head (c : Char) (cs : List Char) (h : c ≠ '🎯') :
    tryGoal (c :: cs) = none := by
  rw [tryGoal]
  have : matchLit "🎯".data (c :: cs) = none := by
    show matchLit ['🎯'] (c :: cs) = none
    rw [matchLit, if_neg h]
  rw [this]

theorem step3go_skip : ∀ (f : Nat) (b : Bool) (l : List Char), '🎯' ∉ l → step3go f b l = l
  | 0, _, _, _ => rfl
  | _ + 1, _, [], _ => rfl
  | f + 1, atStart, c :: cs, h => by
    have hc : c ≠ '🎯' := fun hc => h (by simp [hc])
    have hcs : '🎯' ∉ cs := fun hm => h (by simp [hm])
    rw [step3go]
    by_cases hb : atStart
    · rw [if_pos hb, tryGoal_none_of_head c cs hc, step3go_skip f (c = '\n') cs hcs]
    · rw [if_neg hb, step3go_skip f (c = '\n') cs hcs]

theorem step3_skip (l : List Char) (h : '🎯' ∉ l) : step3 l = l :=
  step3go_skip l.length true l h

theorem tryPat2_none_of_head (c : Char) (cs : List Char) (h : c ≠ '#') :
    tryPat2 (c :: cs) = none := by
  rw [tryPat2]
  have : matchLit "##".data (c :: cs) = none := by
    show matchLit ['#', '#'] (c :: cs) = none
    rw [matchLit, if_neg h]
  rw [this]

theorem prefix_drop_getElem (p l : List Char) (i k : Nat) (h : p <+: l.drop i)
    (hk : k < p.length) : l[i + k]? = p[k]? := by
  obtain ⟨t, ht⟩ := h
  rw [← List.getElem?_drop, ← ht, List.getElem?_append_left hk]

theorem mem_of_getElem_some (l : List Char) (k : Nat) (c : Char) (h : l[k]? = some c) :
    c ∈ l := by
  rw [List.getElem?_eq_some_iff] at h
  obtain ⟨hk, rfl⟩ := h
  exact List.getElem_mem hk

theorem pos_in_append (a rest : List Char) (c : Char) (hr : c ∉ rest) (i : Nat)
    (h : (a ++ rest)[i]? = some c) : i < a.length ∧ a[i]? = some c := by
  by_cases hi : i < a.length
  · rw [List.getElem?_append_left hi] at h
    exact ⟨hi, h⟩
  · rw [List.getElem?_append_right (by omega)] at h
    exact absurd (mem_of_getElem_some _ _ _ h) hr

theorem countOccs_eq_zero (p l : List Char) (h : hasSub p l = false) :
    countOccs p l = 0 := by
  rw [countOccs, occList, List.length_eq_zero]
  rw [List.filter_eq_nil_iff]
  intro i _
  intro hpre
  have : hasSub p l = true :=
    (hasSub_iff_exists p l).mpr ⟨i, List.isPrefixOf_iff_prefix.mp hpre⟩
  rw [this] at h
  exact absurd h (by simp)

theorem countOccs_pos (p l : List Char) (hp : p <+: l) (h0 : 0 < l.length) :
    0 < countOccs p l := by
  rw [countOccs]
  have hmem : 0 ∈ occList p l := by
    rw [occList, List.mem_filter]
    exact ⟨List.mem_range.mpr h0, by simpa [List.isPrefixOf_iff_prefix] using hp⟩
  exact List.length_pos.mpr (List.ne_nil_of_mem hmem)

theorem length_le_one_of_allEq {L : List Nat} (hnd : L.Nodup)
    (h : ∀ a ∈ L, ∀ b ∈ L, a = b) : L.length ≤ 1 := by
  match L with
  | [] => simp
  | [x] => simp
  | x :: y :: t =>
    exfalso
    have hxy : x = y := h x (by simp) y (by simp)
    rw [List.nodup_cons] at hnd
    exact hnd.1 (by simp [hxy])

theorem countOccs_le_one (p l : List Char) (c : Char) (d : Nat) (hd : p[d]? = some c)
    (hu : ∀ i, l[i]? = some c → i = d) : countOccs p l ≤ 1 := by
  rw [countOccs]
  have hdlen : d < p.length := (List.getElem?_eq_some_iff.mp hd).1
  apply length_le_one_of_allEq
  · exact List.Nodup.filter _ (List.nodup_range _)
  · intro a ha b hb
    rw [occList, List.mem_filter] at ha hb
    have hpa : p <+: l.drop a := List.isPrefixOf_iff_prefix.mp (by simpa using ha.2)
    have hpb : p <+: l.drop b := List.isPrefixOf_iff_prefix.mp (by simpa using hb.2)
    have hca : l[a + d]? = some c := by rw [prefix_drop_getElem p l a d hpa hdlen]; exact hd
    have hcb : l[b + d]? = some c := by rw [prefix_drop_getElem p l b d hpb hdlen]; exact hd
    have := hu (a + d) hca
    have := hu (b + d) hcb
    omega

/-! ### C9: the duplicate-header scenario -/

def dupVariant1 : List Char := "**## TEAM PERFORMANCE TABLE**".data
def dupVariant2 : List Char := "## **Team Performance Table**".data

/-- The canonical performance-table heading line. -/
def tableHeadingLine : List Char := "## 📊 TEAM PERFORMANCE TABLE".data

/-- The text standing between the two header variants and the body in
the C9 input family. -/
def c9mid : List Char := ('\n' :: dupVariant2) ++ ['\n']

theorem hasSub_quad_positions (l : List Char) (h : hasSub "**##".data l = true) :
    ∃ i, l[i]? = some '*' ∧ l[i + 2]? = some '#' := by
  obtain ⟨i, hpre⟩ := (hasSub_iff_exists _ l).mp h
  refine ⟨i, ?_, ?_⟩
  · have := prefix_drop_getElem _ l i 0 hpre (by decide)
    simpa using this
  · have := prefix_drop_getElem _ l i 2 hpre (by decide)
    simpa using this

theorem hasSub_hhh_positions (l : List Char) (h : hasSub "###".data l = true) :
    ∃ i, l[i]? = some '#' ∧ l[i + 2]? = some '#' := by
  obtain ⟨i, hpre⟩ := (hasSub_iff_exists _ l).mp h
  refine ⟨i, ?_, ?_⟩
  · have := prefix_drop_getElem _ l i 0 hpre (by decide)
    simpa using this
  · have := prefix_drop_getElem _ l i 2 hpre (by decide)
    simpa using this

theorem c9mid_no_quad (s : List Char) (h1 : '#' ∉ s) (h2 : '*' ∉ s) :
    hasSub "**##".data (c9mid ++ s) = false := by
  cases hb : hasSub "**##".data (c9mid ++ s)
  · rfl
  · exfalso
    obtain ⟨i, hstar, hhash⟩ := hasSub_quad_positions _ hb
    obtain ⟨hi1, hA1⟩ := pos_in_append c9mid s '*' h2 i hstar
    obtain ⟨hi2, hA2⟩ := pos_in_append c9mid s '#' h1 (i + 2) hhash
    have hs : ∀ j < 31, c9mid[j]? = some '*' → j = 4 ∨ j = 5 ∨ j = 28 ∨ j = 29 := by decide
    have hh : ∀ j < 31, c9mid[j]? = some '#' → j = 1 ∨ j = 2 := by decide
    have hlen : c9mid.length = 31 := by decide
    have := hs i (by omega) hA1
    have := hh (i + 2) (by omega) hA2
    omega

theorem r2_c9mid (s : List Char) (h1 : '#' ∉ s) :
    r2 (c9mid ++ s) = '\n' :: '\n' :: s := by
  have hshape : c9mid ++ s = '\n' :: (dupVariant2 ++ ('\n' :: s)) := rfl
  rw [hshape]
  rw [r2_cons_none _ _ (tryPat2_none_of_head '\n' _ (by decide))]
  have hfire : tryPat2 (dupVariant2 ++ ('\n' :: s)) = some ('\n' :: s) := by
    simp [tryPat2, matchLit, isPySpace, dupVariant2, List.dropWhile]
  rw [r2_fire _ _ hfire]
  rw [r2_cons_none _ _ (tryPat2_none_of_head '\n' _ (by decide))]
  rw [r2_skip s (hasSub_false_char _ _ '#' (by decide) h1)]

theorem c9_pipeline (s : List Char) (h1 : '#' ∉ s) (h2 : '*' ∉ s) (h3 : '📊' ∉ s)
    (h4 : '🎯' ∉ s) :
    mdNormalize (dupVariant1 ++ '\n' :: dupVariant2 ++ '\n' :: s) =
      if '|' ∈ s then tableHeader ++ '\n' :: '\n' :: s else '\n' :: '\n' :: s := by
  have hinput : dupVariant1 ++ '\n' :: dupVariant2 ++ '\n' :: s =
      dupVariant1 ++ (c9mid ++ s) := rfl
  have hfire1 : tryPat1 (dupVariant1 ++ (c9mid ++ s)) = some (c9mid ++ s) := by
    simp [tryPat1, matchLit, isPySpace, dupVariant1, List.dropWhile]
    rfl
  have hr1 : r1 (dupVariant1 ++ '\n' :: dupVariant2 ++ '\n' :: s) = c9mid ++ s := by
    rw [hinput, r1_fire _ _ hfire1, r1_skip _ (c9mid_no_quad s h1 h2)]
  have hr2 := r2_c9mid s h1
  have hnn3 : '🎯' ∉ ('\n' :: '\n' :: s) := by simp [h4]
  have hstep3 : step3 ('\n' :: '\n' :: s) = '\n' :: '\n' :: s := step3_skip _ hnn3
  have hTableMarker : hasSub tableMarker ('\n' :: '\n' :: s) = false := by
    refine hasSub_false_char _ _ '📊' (by decide) ?_
    simp [h3]
  rw [mdNormalize, hr1, hr2, hstep3, hTableMarker]
  by_cases hp : '|' ∈ s
  · have hPipe : hasSub ['|'] ('\n' :: '\n' :: s) = true := by
      rw [hasSub_singleton_iff]
      simp [hp]
    rw [hPipe]
    simp only [Bool.not_false, Bool.and_true, if_true]
    have hnoHHH : hasSub hhhMarker (tableHeader ++ '\n' :: '\n' :: s) = false := by
      cases hb : hasSub hhhMarker (tableHeader ++ '\n' :: '\n' :: s)
      · rfl
      · exfalso
        obtain ⟨i, ha, hb2⟩ := hasSub_hhh_positions _ hb
        have hrest : '#' ∉ ('\n' :: '\n' :: s) := by simp [h1]
        obtain ⟨hi1, hA1⟩ := pos_in_append tableHeader _ '#' hrest i ha
        obtain ⟨hi2, hA2⟩ := pos_in_append tableHeader _ '#' hrest (i + 2) hb2
        have hh : ∀ j < 29, tableHeader[j]? = some '#' → j = 0 ∨ j = 1 := by decide
        have hlen : tableHeader.length = 29 := by decide
        have := hh i (by omega) hA1
        have := hh (i + 2) (by omega) hA2
        omega
    rw [hnoHHH]
    simp only [Bool.and_false, Bool.false_eq_true, if_false]
    rw [step5_skip _ hnoHHH, if_pos hp]
  · have hPipe : hasSub ['|'] ('\n' :: '\n' :: s) = false := by
      cases hb : hasSub ['|'] ('\n' :: '\n' :: s)
      · rfl
      · exfalso
        have hmem : '|' ∈ ('\n' :: '\n' :: s) := (hasSub_singleton_iff '|' _).mp hb
        have h5 : '|' = '\n' ∨ '|' = '\n' ∨ '|' ∈ s := by simpa using hmem
        rcases h5 with h | h | h
        · exact absurd h (by decide)
        · exact absurd h (by decide)
        · exact hp h
    rw [hPipe]
    simp only [Bool.and_false, Bool.false_eq_true, if_false]
    have hnoHHH : hasSub hhhMarker ('\n' :: '\n' :: s) = false := by
      refine hasSub_false_char _ _ '#' (by decide) ?_
      simp [h1]
    rw [hnoHHH]
    simp only [Bool.and_false, Bool.false_eq_true, if_false]
    rw [step5_skip _ hnoHHH, if_neg hp]

set_option maxRecDepth 8000 in
/-- C9 counterexample: an input in which both duplicate header variants
appear (once each, on their own lines) but which contains no table
delimiter. The transform deletes both variants and inserts no
replacement, so the normalized markup contains ZERO canonical
performance-table headings — not exactly one as claimed. -/
theorem c9_counterexample_no_table :
    countOccs tableHeadingLine
      (mdNormalize
        "**## TEAM PERFORMANCE TABLE**\n## **Team Performance Table**\nhello\n".data)
      = 0 := by
  decide

/-- C9 (amended): for every input consisting of the two duplicate
performance-table header variants on their own lines followed by body
text free of markup metacharacters (no `#`, `*`, `📊`, `🎯`), the
normalized markup contains exactly one canonical performance-table
heading when the body contains a table delimiter `|`, and zero
otherwise — the variants are deleted, and the canonical heading is
inserted only when table content is present without one. -/
theorem c9_duplicate_header_collapse (s : List Char) (h1 : '#' ∉ s) (h2 : '*' ∉ s)
    (h3 : '📊' ∉ s) (h4 : '🎯' ∉ s) :
    countOccs tableHeadingLine
      (mdNormalize (dupVariant1 ++ '\n' :: dupVariant2 ++ '\n' :: s))
      = if '|' ∈ s then 1 else 0 := by
  rw [c9_pipeline s h1 h2 h3 h4]
  by_cases hp : '|' ∈ s
  · rw [if_pos hp, if_pos hp]
    have hshape : tableHeader ++ '\n' :: '\n' :: s =
        tableHeadingLine ++ ('\n' :: '\n' :: '\n' :: '\n' :: s) := rfl
    rw [hshape]
    have hL : tableHeadingLine.length = 27 := by decide
    have hnot : '📊' ∉ ('\n' :: '\n' :: '\n' :: '\n' :: s) := by simp [h3]
    have hge : 0 < countOccs tableHeadingLine
        (tableHeadingLine ++ ('\n' :: '\n' :: '\n' :: '\n' :: s)) := by
      refine countOccs_pos _ _ ⟨_, rfl⟩ ?_
      rw [List.length_append, hL]
      omega
    have hle : countOccs tableHeadingLine
        (tableHeadingLine ++ ('\n' :: '\n' :: '\n' :: '\n' :: s)) ≤ 1 := by
      refine countOccs_le_one _ _ '📊' 3 (by decide) ?_
      intro i hi
      obtain ⟨hlt, hA⟩ := pos_in_append tableHeadingLine _ '📊' hnot i hi
      have hall : ∀ j < 27, tableHeadingLine[j]? = some '📊' → j = 3 := by decide
      exact hall i (by omega) hA
    omega
  · rw [if_neg hp, if_neg hp]
    refine countOccs_eq_zero _ _ (hasSub_false_char _ _ '📊' (by decide) ?_)
    simp [h3]

/-- C9 witness: a body with a table delimiter yields exactly one
canonical heading. -/
theorem c9_duplicate_header_collapse_witness :
    countOccs tableHeadingLine
      (mdNormalize (dupVariant1 ++ '\n' :: dupVariant2 ++ '\n' :: " body | 4/5 ".data))
      = if '|' ∈ " body | 4/5 ".data then 1 else 0 :=
  c9_duplicate_header_collapse " body | 4/5 ".data
    (by decide) (by decide) (by decide) (by decide)

set_option maxRecDepth 4000 in
/-- The repository-owned normalization phase of markdown_to_html is not
idempotent in isolation: on this input the first pass consumes a bold
marker pair and leaves `###  **x**`, which a second pass unwraps to
`### x`. (The full transform also runs the external markdown library,
which is outside this development.) -/
theorem mdNormalize_not_idempotent :
    mdNormalize (mdNormalize "### **** **x**".data) ≠
      mdNormalize "### **** **x**".data := by
  decide
